import Mathlib

/-!
Verification development for the dns-rs recursive DNS resolver.

The definitions below are a shallow embedding of the Rust sources:

* src/protocol/src/byte_packet_buffer.rs  (fixed 512-byte cursor buffer)
* src/protocol/src/header.rs, packet.rs, records/*.rs  (wire codec)
* src/dns/src/header.rs                    (older duplicate of the header codec)
* src/resolver/src/resolver.rs, server.rs  (iterative resolver and UDP handler)

Machine integers are modelled as Nat with explicit truncation where the Rust
code casts (an `as u8` store keeps `% 256`, an `as u32` cast keeps
`% 2^32`).  A Rust panic (array index out of bounds, a failed `assert!`
macro, `unwrap` of an Err) is the `fatal` outcome; loops that the Rust code
runs without any bound are given a fuel parameter, and `spin` is the
outcome of running out of fuel, so `result = spin for every fuel` states
that the source loop never finishes.  Network and randomness effects of the
resolver are abstracted as explicit oracle parameters.  Strings are kept as
Lean String values; the UTF-8 byte view of a label is computed per char,
and the lossy byte-to-char decoding is exact for ASCII bytes (multi-byte
UTF-8 sequences decode to replacement chars in this model; every theorem
below that touches name decoding restricts names to ASCII).
-/

set_option maxRecDepth 8000

namespace DnsRs

/-- Outcome of a codec operation: success, the OutOfRange error of
src/protocol/src/errors.rs (with its expected/max payload), a Rust panic,
or fuel exhaustion of the embedding. -/
inductive CRes (α : Type) where
  | ok (a : α)
  | oor (expected max : Nat)
  | fatal
  | spin
deriving DecidableEq

def CRes.bind : CRes α → (α → CRes β) → CRes β
  | .ok a, f => f a
  | .oor e m, _ => .oor e m
  | .fatal, _ => .fatal
  | .spin, _ => .spin

def CRes.map (f : α → β) : CRes α → CRes β
  | .ok a => .ok (f a)
  | .oor e m => .oor e m
  | .fatal => .fatal
  | .spin => .spin

def CRes.isOk : CRes α → Bool
  | .ok _ => true
  | _ => false

/-- DEFAULT_BUFFER_SIZE in byte_packet_buffer.rs. -/
def DEFAULT_BUFFER_SIZE : Nat := 512

/-- The 512-byte buffer with its cursor.  The byte store is a total
function from index to byte value; only indices below 512 are ever read,
and every store keeps values below 256 (the u8 type of the Rust array). -/
structure BytePacketBuffer where
  buf : Nat → Nat
  pos : Nat

/-- A single u8 store into the byte array (`self.buf[i] = value`). -/
def setB (f : Nat → Nat) (i v : Nat) : Nat → Nat :=
  fun j => if j = i then v % 256 else f j

/-- The bytes at positions p, p+1, ..., p+len-1. -/
def bytesAt (f : Nat → Nat) (p len : Nat) : List Nat :=
  (List.range len).map fun i => f (p + i)

/-- BytePacketBuffer::new. -/
def bpbNew : BytePacketBuffer := ⟨fun _ => 0, 0⟩

/-- BytePacketBuffer::from_raw_data: copy min(len, 512) bytes into a zeroed
buffer.  The % 256 records that the Rust input slice has type &[u8]. -/
def from_raw_data (data : List Nat) : BytePacketBuffer :=
  ⟨fun i => if i < min DEFAULT_BUFFER_SIZE data.length then data.getD i 0 % 256 else 0, 0⟩

/-- BytePacketBuffer::bytes: the slice [0, pos). -/
def bpbBytes (b : BytePacketBuffer) : List Nat :=
  bytesAt b.buf 0 b.pos

/-- Serializer::serialize_u8 for BytePacketBuffer. -/
def serialize_u8 (b : BytePacketBuffer) (value : Nat) : CRes BytePacketBuffer :=
  if b.pos + 1 > DEFAULT_BUFFER_SIZE then .oor (b.pos + 1) DEFAULT_BUFFER_SIZE
  else .ok ⟨setB b.buf b.pos value, b.pos + 1⟩

/-- Serializer::serialize_u16: big-endian, the two `as u8` casts are the
masks inside setB. -/
def serialize_u16 (b : BytePacketBuffer) (value : Nat) : CRes BytePacketBuffer :=
  if b.pos + 2 > DEFAULT_BUFFER_SIZE then .oor (b.pos + 2) DEFAULT_BUFFER_SIZE
  else .ok ⟨setB (setB b.buf b.pos (value >>> 8)) (b.pos + 1) value, b.pos + 2⟩

/-- Serializer::serialize_u32: big-endian. -/
def serialize_u32 (b : BytePacketBuffer) (value : Nat) : CRes BytePacketBuffer :=
  if b.pos + 4 > DEFAULT_BUFFER_SIZE then .oor (b.pos + 4) DEFAULT_BUFFER_SIZE
  else .ok ⟨setB (setB (setB (setB b.buf b.pos (value >>> 24)) (b.pos + 1) (value >>> 16))
      (b.pos + 2) (value >>> 8)) (b.pos + 3) value, b.pos + 4⟩

/-- Seek::seek for BytePacketBuffer. -/
def seekB (b : BytePacketBuffer) (p : Nat) : CRes BytePacketBuffer :=
  if p > DEFAULT_BUFFER_SIZE then .oor p DEFAULT_BUFFER_SIZE
  else .ok ⟨b.buf, p⟩

/-- Rust str::split of a name on a separator char; keeps empty pieces,
returns one (empty) piece for the empty string, exactly as
`qname.split(".")` does. -/
def splitAux (sep : Char) : List Char → List Char → List (List Char)
  | [], acc => [acc.reverse]
  | c :: cs, acc =>
    if c = sep then acc.reverse :: splitAux sep cs []
    else splitAux sep cs (c :: acc)

def splitDot (s : String) : List (List Char) :=
  splitAux (Char.ofNat 46) s.data []

/-- UTF-8 bytes of one char (str::as_bytes views labels this way). -/
def charUtf8 (c : Char) : List Nat :=
  if c.toNat < 128 then [c.toNat]
  else if c.toNat < 2048 then [192 + c.toNat / 64, 128 + c.toNat % 64]
  else if c.toNat < 65536 then
    [224 + c.toNat / 4096, 128 + c.toNat / 64 % 64, 128 + c.toNat % 64]
  else
    [240 + c.toNat / 262144, 128 + c.toNat / 4096 % 64, 128 + c.toNat / 64 % 64,
      128 + c.toNat % 64]

/-- label.as_bytes() for a label given as a char list. -/
def labelBytes (l : List Char) : List Nat :=
  (l.map charUtf8).flatten

/-- copy_from_slice at position p. -/
def writeBytes (f : Nat → Nat) (p : Nat) : List Nat → (Nat → Nat)
  | [] => f
  | v :: vs => writeBytes (setB f p v) (p + 1) vs

/-- The label loop of Serializer::serialize_qname: for each label write the
length byte (the `as u8` cast is the mask in setB) and the raw bytes. -/
def serializeLabels : List (List Char) → BytePacketBuffer → CRes BytePacketBuffer
  | [], b => .ok b
  | l :: rest, b =>
    (serialize_u8 b (labelBytes l).length).bind fun b1 =>
    if b1.pos + (labelBytes l).length > DEFAULT_BUFFER_SIZE then
      .oor (b1.pos + (labelBytes l).length) DEFAULT_BUFFER_SIZE
    else
      serializeLabels rest ⟨writeBytes b1.buf b1.pos (labelBytes l), b1.pos + (labelBytes l).length⟩

/-- Serializer::serialize_qname: labels then the terminating zero byte. -/
def serialize_qname (b : BytePacketBuffer) (qname : String) : CRes BytePacketBuffer :=
  (serializeLabels (splitDot qname) b).bind fun b2 => serialize_u8 b2 0

/-- Deserializer::deserialize_u8.  The Rust guard is `pos > 512` (not >=):
at pos = 512 the guard passes and the array index panics. -/
def deserialize_u8 (b : BytePacketBuffer) : CRes (Nat × BytePacketBuffer) :=
  if b.pos > DEFAULT_BUFFER_SIZE then .oor b.pos DEFAULT_BUFFER_SIZE
  else if b.pos < DEFAULT_BUFFER_SIZE then .ok (b.buf b.pos, ⟨b.buf, b.pos + 1⟩)
  else .fatal

def deserialize_u16 (b : BytePacketBuffer) : CRes (Nat × BytePacketBuffer) :=
  (deserialize_u8 b).bind fun x =>
  (deserialize_u8 x.2).map fun y => ((x.1 <<< 8) ||| y.1, y.2)

def deserialize_u32 (b : BytePacketBuffer) : CRes (Nat × BytePacketBuffer) :=
  (deserialize_u16 b).bind fun x =>
  (deserialize_u16 x.2).map fun y => ((x.1 <<< 16) ||| y.1, y.2)

/-- BytePacketBuffer::get_u8 (random access).  Same `pos > 512` guard, so
pos = 512 panics on the array index. -/
def get_u8 (b : BytePacketBuffer) (p : Nat) : CRes Nat :=
  if p > DEFAULT_BUFFER_SIZE then .oor p DEFAULT_BUFFER_SIZE
  else if p < DEFAULT_BUFFER_SIZE then .ok (b.buf p)
  else .fatal

/-- BytePacketBuffer::get_range. -/
def get_range (b : BytePacketBuffer) (p len : Nat) : CRes (List Nat) :=
  if p + len > DEFAULT_BUFFER_SIZE then .oor (p + len) DEFAULT_BUFFER_SIZE
  else .ok (bytesAt b.buf p len)

/-- BytePacketBuffer::read_u8: an assert! guard, so out of range aborts. -/
def read_u8 (b : BytePacketBuffer) : CRes (Nat × BytePacketBuffer) :=
  if b.pos < DEFAULT_BUFFER_SIZE then .ok (b.buf b.pos, ⟨b.buf, b.pos + 1⟩)
  else .fatal

/-- BytePacketBuffer::read_n: the assert is `pos + len < 512` (strict), so
even a read that ends exactly at 512 aborts. -/
def read_n (b : BytePacketBuffer) (len : Nat) : CRes (List Nat × BytePacketBuffer) :=
  if b.pos + len < DEFAULT_BUFFER_SIZE then .ok (bytesAt b.buf b.pos len, ⟨b.buf, b.pos + len⟩)
  else .fatal

def read_u16 (b : BytePacketBuffer) : CRes (Nat × BytePacketBuffer) :=
  (read_u8 b).bind fun x =>
  (read_u8 x.2).map fun y => ((x.1 <<< 8) ||| y.1, y.2)

def read_u32 (b : BytePacketBuffer) : CRes (Nat × BytePacketBuffer) :=
  (read_u8 b).bind fun x1 =>
  (read_u8 x1.2).bind fun x2 =>
  (read_u8 x2.2).bind fun x3 =>
  (read_u8 x3.2).map fun x4 =>
  ((x1.1 <<< 24) ||| (x2.1 <<< 16) ||| (x3.1 <<< 8) ||| x4.1, x4.2)

/-- String::from_utf8_lossy(..).to_lowercase() viewed one byte at a time:
exact for ASCII bytes; bytes above 127 become the replacement char in this
model (see the header comment). -/
def lossyLowerByte (n : Nat) : Char :=
  if 65 ≤ n ∧ n ≤ 90 then Char.ofNat (n + 32)
  else if n < 128 then Char.ofNat n
  else Char.ofNat 65533

def lossyLower (bs : List Nat) : List Char :=
  bs.map lossyLowerByte

/-- The loop of BytePacketBuffer::read_qname.  All buffer errors are
unwrapped in the source, so they abort here.  State: remaining fuel, the
working position, the jumped flag, the outer cursor, the accumulated
output chars and the pending delimiter. -/
def readQnameAux (buf : Nat → Nat) :
    Nat → Nat → Bool → Nat → List Char → List Char → CRes (List Char × Nat)
  | 0, _, _, _, _, _ => .spin
  | fuel + 1, pos0, jumped, cur, out, delim =>
    if pos0 ≥ DEFAULT_BUFFER_SIZE then .fatal
    else
      let len := buf pos0
      let pos := pos0 + 1
      if len = 0 then
        if jumped then .ok (out, cur)
        else if pos > DEFAULT_BUFFER_SIZE then .fatal
        else .ok (out, pos)
      else if len &&& 192 = 192 then
        if jumped then
          if pos ≥ DEFAULT_BUFFER_SIZE then .fatal
          else readQnameAux buf fuel (((len ^^^ 192) <<< 8) ||| buf pos) true cur out delim
        else
          if pos + 1 > DEFAULT_BUFFER_SIZE then .fatal
          else if pos ≥ DEFAULT_BUFFER_SIZE then .fatal
          else readQnameAux buf fuel (((len ^^^ 192) <<< 8) ||| buf pos) true (pos + 1) out delim
      else
        if pos + len > DEFAULT_BUFFER_SIZE then .fatal
        else
          readQnameAux buf fuel (pos + len) jumped cur
            (out ++ delim ++ lossyLower (bytesAt buf pos len)) [Char.ofNat 46]

/-- BytePacketBuffer::read_qname. -/
def read_qname (fuel : Nat) (b : BytePacketBuffer) : CRes (String × BytePacketBuffer) :=
  (readQnameAux b.buf fuel b.pos false b.pos [] []).map fun r => (⟨r.1⟩, ⟨b.buf, r.2⟩)

/-- The loop of Deserializer::deserialize_qname: identical traversal, but
buffer errors propagate as OutOfRange instead of being unwrapped. -/
def deserializeQnameAux (buf : Nat → Nat) :
    Nat → Nat → Bool → Nat → List Char → List Char → CRes (List Char × Nat)
  | 0, _, _, _, _, _ => .spin
  | fuel + 1, pos0, jumped, cur, out, delim =>
    if pos0 > DEFAULT_BUFFER_SIZE then .oor pos0 DEFAULT_BUFFER_SIZE
    else if pos0 ≥ DEFAULT_BUFFER_SIZE then .fatal
    else
      let len := buf pos0
      let pos := pos0 + 1
      if len = 0 then
        if jumped then .ok (out, cur)
        else if pos > DEFAULT_BUFFER_SIZE then .oor pos DEFAULT_BUFFER_SIZE
        else .ok (out, pos)
      else if len &&& 192 = 192 then
        if jumped then
          if pos > DEFAULT_BUFFER_SIZE then .oor pos DEFAULT_BUFFER_SIZE
          else if pos ≥ DEFAULT_BUFFER_SIZE then .fatal
          else deserializeQnameAux buf fuel (((len ^^^ 192) <<< 8) ||| buf pos) true cur out delim
        else
          if pos + 1 > DEFAULT_BUFFER_SIZE then .oor (pos + 1) DEFAULT_BUFFER_SIZE
          else if pos > DEFAULT_BUFFER_SIZE then .oor pos DEFAULT_BUFFER_SIZE
          else if pos ≥ DEFAULT_BUFFER_SIZE then .fatal
          else deserializeQnameAux buf fuel (((len ^^^ 192) <<< 8) ||| buf pos) true (pos + 1) out delim
      else
        if pos + len > DEFAULT_BUFFER_SIZE then .oor (pos + len) DEFAULT_BUFFER_SIZE
        else
          deserializeQnameAux buf fuel (pos + len) jumped cur
            (out ++ delim ++ lossyLower (bytesAt buf pos len)) [Char.ofNat 46]

/-- Deserializer::deserialize_qname. -/
def deserialize_qname (fuel : Nat) (b : BytePacketBuffer) : CRes (String × BytePacketBuffer) :=
  (deserializeQnameAux b.buf fuel b.pos false b.pos [] []).map fun r => (⟨r.1⟩, ⟨b.buf, r.2⟩)

/-- OpCode of header.rs. -/
inductive OpCode where
  | query
  | iquery
  | status
deriving DecidableEq

/-- OpCode::from_u8: unknown values decode to Query. -/
def OpCode.from_u8 (num : Nat) : OpCode :=
  if num = 1 then .iquery else if num = 2 then .status else .query

def OpCode.as_u8 : OpCode → Nat
  | .query => 0
  | .iquery => 1
  | .status => 2

/-- ResultCode of header.rs. -/
inductive ResultCode where
  | noError
  | formError
  | serverFailure
  | nxDomain
  | notImplemented
  | refused
deriving DecidableEq

/-- ResultCode::from_u8: unknown values decode to NoError. -/
def ResultCode.from_u8 (num : Nat) : ResultCode :=
  if num = 1 then .formError
  else if num = 2 then .serverFailure
  else if num = 3 then .nxDomain
  else if num = 4 then .notImplemented
  else if num = 5 then .refused
  else .noError

def ResultCode.as_u8 : ResultCode → Nat
  | .noError => 0
  | .formError => 1
  | .serverFailure => 2
  | .nxDomain => 3
  | .notImplemented => 4
  | .refused => 5

/-- Header of src/protocol/src/header.rs (same shape in src/dns). -/
structure Header where
  id : Nat
  is_response : Bool
  opcode : OpCode
  authoritative_answer : Bool
  truncated : Bool
  recursion_desired : Bool
  recursion_available : Bool
  z : Bool
  authenticated_data : Bool
  checking_disabled : Bool
  result_code : ResultCode
  total_questions : Nat
  total_answer_records : Nat
  total_authority_records : Nat
  total_additional_records : Nat
deriving DecidableEq

/-- Header::new. -/
def Header.new : Header :=
  ⟨0, false, .query, false, false, false, false, false, false, false, .noError, 0, 0, 0, 0⟩

/-- Rust `bool as u8`. -/
def bnum (x : Bool) : Nat := if x then 1 else 0

/-- Serialize for Header (protocol crate). -/
def Header.serialize (h : Header) (b : BytePacketBuffer) : CRes BytePacketBuffer :=
  (serialize_u16 b h.id).bind fun b =>
  (serialize_u8 b (bnum h.recursion_desired ||| (bnum h.truncated <<< 1) |||
      (bnum h.authoritative_answer <<< 2) ||| (h.opcode.as_u8 <<< 3) |||
      (bnum h.is_response <<< 7))).bind fun b =>
  (serialize_u8 b (h.result_code.as_u8 ||| (bnum h.checking_disabled <<< 4) |||
      (bnum h.authenticated_data <<< 5) ||| (bnum h.z <<< 6) |||
      (bnum h.recursion_available <<< 7))).bind fun b =>
  (serialize_u16 b h.total_questions).bind fun b =>
  (serialize_u16 b h.total_answer_records).bind fun b =>
  (serialize_u16 b h.total_authority_records).bind fun b =>
  serialize_u16 b h.total_additional_records

/-- Header::from_buffer of the protocol crate: flag bits then the four
counts in order qd, an, ns, ar. -/
def Header.from_buffer (b : BytePacketBuffer) : CRes (Header × BytePacketBuffer) :=
  (read_u16 b).bind fun idp =>
  (read_u8 idp.2).bind fun b1p =>
  (read_u8 b1p.2).bind fun b2p =>
  (read_u16 b2p.2).bind fun qdp =>
  (read_u16 qdp.2).bind fun anp =>
  (read_u16 anp.2).bind fun nsp =>
  (read_u16 nsp.2).map fun arp =>
  let byte1 := b1p.1
  let byte2 := b2p.1
  ({ id := idp.1
     is_response := decide (byte1 >>> 7 > 0)
     opcode := OpCode.from_u8 ((byte1 >>> 3) &&& 15)
     authoritative_answer := decide (byte1 &&& (1 <<< 2) > 0)
     truncated := decide (byte1 &&& (1 <<< 1) > 0)
     recursion_desired := decide (byte1 &&& 1 > 0)
     recursion_available := decide (byte2 >>> 7 > 0)
     z := decide (byte2 &&& (1 <<< 6) > 0)
     authenticated_data := decide (byte2 &&& (1 <<< 5) > 0)
     checking_disabled := decide (byte2 &&& (1 <<< 4) > 0)
     result_code := ResultCode.from_u8 (byte2 &&& 15)
     total_questions := qdp.1
     total_answer_records := anp.1
     total_authority_records := nsp.1
     total_additional_records := arp.1 }, arp.2)

/-- Header::from_buffer of src/dns/src/header.rs.  The source assigns
total_authority_records twice in a row (lines 125 and 126): the nscount
word is read and then overwritten by the arcount word, and
total_additional_records keeps the Header::new default 0.  The read
functions of the dns crate are byte-for-byte the ones embedded above. -/
def dnsHeader_from_buffer (b : BytePacketBuffer) : CRes (Header × BytePacketBuffer) :=
  (read_u16 b).bind fun idp =>
  (read_u8 idp.2).bind fun b1p =>
  (read_u8 b1p.2).bind fun b2p =>
  (read_u16 b2p.2).bind fun qdp =>
  (read_u16 qdp.2).bind fun anp =>
  (read_u16 anp.2).bind fun nsp =>
  (read_u16 nsp.2).map fun arp =>
  let byte1 := b1p.1
  let byte2 := b2p.1
  ({ id := idp.1
     is_response := decide (byte1 >>> 7 > 0)
     opcode := OpCode.from_u8 ((byte1 >>> 3) &&& 15)
     authoritative_answer := decide (byte1 &&& (1 <<< 2) > 0)
     truncated := decide (byte1 &&& (1 <<< 1) > 0)
     recursion_desired := decide (byte1 &&& 1 > 0)
     recursion_available := decide (byte2 >>> 7 > 0)
     z := decide (byte2 &&& (1 <<< 6) > 0)
     authenticated_data := decide (byte2 &&& (1 <<< 5) > 0)
     checking_disabled := decide (byte2 &&& (1 <<< 4) > 0)
     result_code := ResultCode.from_u8 (byte2 &&& 15)
     total_questions := qdp.1
     total_answer_records := anp.1
     total_authority_records := arp.1
     total_additional_records := 0 }, arp.2)

/-- QueryType of packet.rs. -/
inductive QueryType where
  | unknown (num : Nat)
  | a
  | authoritativeNameServer
  | mailDestination
  | mailForwarder
  | canonicalName
  | startOfAuthority
  | mailbox
  | mailGroup
  | mailRename
  | null
  | wellKnownService
  | domainPointer
  | hostInformation
  | mailInformation
  | mailExchange
  | text
deriving DecidableEq

def QueryType.from_u16 (num : Nat) : QueryType :=
  if num = 1 then .a
  else if num = 2 then .authoritativeNameServer
  else if num = 3 then .mailDestination
  else if num = 4 then .mailForwarder
  else if num = 5 then .canonicalName
  else if num = 6 then .startOfAuthority
  else if num = 7 then .mailbox
  else if num = 8 then .mailGroup
  else if num = 9 then .mailRename
  else if num = 10 then .null
  else if num = 11 then .wellKnownService
  else if num = 12 then .domainPointer
  else if num = 13 then .hostInformation
  else if num = 14 then .mailInformation
  else if num = 15 then .mailExchange
  else if num = 16 then .text
  else .unknown num

def QueryType.as_u16 : QueryType → Nat
  | .a => 1
  | .authoritativeNameServer => 2
  | .mailDestination => 3
  | .mailForwarder => 4
  | .canonicalName => 5
  | .startOfAuthority => 6
  | .mailbox => 7
  | .mailGroup => 8
  | .mailRename => 9
  | .null => 10
  | .wellKnownService => 11
  | .domainPointer => 12
  | .hostInformation => 13
  | .mailInformation => 14
  | .mailExchange => 15
  | .text => 16
  | .unknown num => num

namespace Records

/-- records::A.  The Rust field `_class` is called rclass here; ttl is the
Duration in whole seconds; ip is the Ipv4Addr as its u32 value. -/
structure A where
  domain : String
  rclass : Nat
  ttl : Nat
  ip : Nat
deriving DecidableEq

/-- records::AuthoritativeNameServer (NS). -/
structure AuthoritativeNameServer where
  domain : String
  rclass : Nat
  ttl : Nat
  ns_name : String
deriving DecidableEq

/-- records::CName.  The Rust field alias is called aliasName here. -/
structure CName where
  domain : String
  rclass : Nat
  ttl : Nat
  aliasName : String
deriving DecidableEq

/-- records::MailExchange (MX). -/
structure MailExchange where
  domain : String
  rclass : Nat
  ttl : Nat
  preference : Nat
  exchange : String
deriving DecidableEq

/-- Serialize for records::A: name, type 1, class 1, ttl (the
`as_secs() as u32` cast is the % 2^32), rdlength 4, the four
address octets (`octets()[k]` is a u8, masked inside setB). -/
def A.serialize (r : A) (b : BytePacketBuffer) : CRes BytePacketBuffer :=
  (serialize_qname b r.domain).bind fun b =>
  (serialize_u16 b 1).bind fun b =>
  (serialize_u16 b 1).bind fun b =>
  (serialize_u32 b (r.ttl % 4294967296)).bind fun b =>
  (serialize_u16 b 4).bind fun b =>
  (serialize_u8 b (r.ip >>> 24)).bind fun b =>
  (serialize_u8 b (r.ip >>> 16)).bind fun b =>
  (serialize_u8 b (r.ip >>> 8)).bind fun b =>
  serialize_u8 b r.ip

/-- Serialize for records::AuthoritativeNameServer: placeholder rdlength,
rdata, then the back patch payload_size = position - (size_pos + 2). -/
def AuthoritativeNameServer.serialize (r : AuthoritativeNameServer) (b : BytePacketBuffer) :
    CRes BytePacketBuffer :=
  (serialize_qname b r.domain).bind fun b =>
  (serialize_u16 b 2).bind fun b =>
  (serialize_u16 b 1).bind fun b =>
  (serialize_u32 b (r.ttl % 4294967296)).bind fun b =>
  let size_pos := b.pos
  (serialize_u16 b 0).bind fun b =>
  (serialize_qname b r.ns_name).bind fun b =>
  let payload_size := b.pos - (size_pos + 2)
  let current_position := b.pos
  (seekB b size_pos).bind fun b =>
  (serialize_u16 b (payload_size % 65536)).bind fun b =>
  seekB b current_position

/-- Serialize for records::CName: same placeholder and back patch shape. -/
def CName.serialize (r : CName) (b : BytePacketBuffer) : CRes BytePacketBuffer :=
  (serialize_qname b r.domain).bind fun b =>
  (serialize_u16 b 5).bind fun b =>
  (serialize_u16 b 1).bind fun b =>
  (serialize_u32 b (r.ttl % 4294967296)).bind fun b =>
  let size_pos := b.pos
  (serialize_u16 b 0).bind fun b =>
  (serialize_qname b r.aliasName).bind fun b =>
  let payload_size := b.pos - (size_pos + 2)
  let current_position := b.pos
  (seekB b size_pos).bind fun b =>
  (serialize_u16 b (payload_size % 65536)).bind fun b =>
  seekB b current_position

/-- Serialize for records::MailExchange.  The back patch in the source is
`serializer.position() - size_pos + 2` with no parentheses around
`size_pos + 2`, so the written rdlength is 4 more than the rdata size. -/
def MailExchange.serialize (r : MailExchange) (b : BytePacketBuffer) : CRes BytePacketBuffer :=
  (serialize_qname b r.domain).bind fun b =>
  (serialize_u16 b 15).bind fun b =>
  (serialize_u16 b 1).bind fun b =>
  (serialize_u32 b (r.ttl % 4294967296)).bind fun b =>
  let size_pos := b.pos
  (serialize_u16 b 0).bind fun b =>
  (serialize_u16 b r.preference).bind fun b =>
  (serialize_qname b r.exchange).bind fun b =>
  let payload_size := b.pos - size_pos + 2
  let current_position := b.pos
  (seekB b size_pos).bind fun b =>
  (serialize_u16 b (payload_size % 65536)).bind fun b =>
  seekB b current_position

end Records

/-- Record of packet.rs. -/
inductive Record where
  | unknown (domain : String) (qtype : QueryType) (rclass : Nat) (ttl : Nat) (data : List Nat)
  | a (r : Records.A)
  | authoritativeNameServer (r : Records.AuthoritativeNameServer)
  | canonicalName (r : Records.CName)
  | mailExchange (r : Records.MailExchange)
deriving DecidableEq

/-- Record::from_buffer: common prefix then dispatch on the decoded type.
The rdlength word is read but not used to bound the qname-valued rdata. -/
def Record.from_buffer (fuel : Nat) (b : BytePacketBuffer) : CRes (Record × BytePacketBuffer) :=
  (read_qname fuel b).bind fun dp =>
  (read_u16 dp.2).bind fun tp =>
  (read_u16 tp.2).bind fun cp =>
  (read_u32 cp.2).bind fun ttlp =>
  (read_u16 ttlp.2).bind fun lenp =>
  match QueryType.from_u16 tp.1 with
  | .a =>
    (read_u32 lenp.2).map fun ipp => (.a ⟨dp.1, cp.1, ttlp.1, ipp.1⟩, ipp.2)
  | .authoritativeNameServer =>
    (read_qname fuel lenp.2).map fun np => (.authoritativeNameServer ⟨dp.1, cp.1, ttlp.1, np.1⟩, np.2)
  | .canonicalName =>
    (read_qname fuel lenp.2).map fun np => (.canonicalName ⟨dp.1, cp.1, ttlp.1, np.1⟩, np.2)
  | .mailExchange =>
    (read_u16 lenp.2).bind fun pp =>
    (read_qname fuel pp.2).map fun np => (.mailExchange ⟨dp.1, cp.1, ttlp.1, pp.1, np.1⟩, np.2)
  | q =>
    (read_n lenp.2 lenp.1).map fun datap => (.unknown dp.1 q cp.1 ttlp.1 datap.1, datap.2)

/-- Serialize for Record.  The catch-all arm of the source is an empty
block: an Unknown record serializes to nothing at all. -/
def Record.serialize (r : Record) (b : BytePacketBuffer) : CRes BytePacketBuffer :=
  match r with
  | .a rec => rec.serialize b
  | .authoritativeNameServer rec => rec.serialize b
  | .canonicalName rec => rec.serialize b
  | .mailExchange rec => rec.serialize b
  | .unknown _ _ _ _ _ => .ok b

/-- Question of packet.rs; the Rust field `_class` is called rclass. -/
structure Question where
  name : String
  qtype : QueryType
  rclass : Nat
deriving DecidableEq

def Question.from_buffer (fuel : Nat) (b : BytePacketBuffer) : CRes (Question × BytePacketBuffer) :=
  (read_qname fuel b).bind fun np =>
  (read_u16 np.2).bind fun tp =>
  (read_u16 tp.2).map fun cp =>
  (⟨np.1, QueryType.from_u16 tp.1, cp.1⟩, cp.2)

/-- Serialize for Question: the class written is the constant 1. -/
def Question.serialize (q : Question) (b : BytePacketBuffer) : CRes BytePacketBuffer :=
  (serialize_qname b q.name).bind fun b =>
  (serialize_u16 b q.qtype.as_u16).bind fun b =>
  serialize_u16 b 1

/-- Packet of packet.rs. -/
structure Packet where
  header : Header
  questions : List Question
  answers : List Record
  authorities : List Record
  additionals : List Record
deriving DecidableEq

def Packet.new : Packet := ⟨Header.new, [], [], [], []⟩

/-- The count-driven read loops of Packet::from_buffer. -/
def readListN (reader : BytePacketBuffer → CRes (α × BytePacketBuffer)) :
    Nat → BytePacketBuffer → CRes (List α × BytePacketBuffer)
  | 0, b => .ok ([], b)
  | n + 1, b =>
    (reader b).bind fun xp =>
    (readListN reader n xp.2).map fun xsp => (xp.1 :: xsp.1, xsp.2)

/-- Packet::from_buffer: header, then qdcount questions, then ancount,
nscount, arcount records. -/
def Packet.from_buffer (fuel : Nat) (b : BytePacketBuffer) : CRes (Packet × BytePacketBuffer) :=
  (Header.from_buffer b).bind fun hp =>
  (readListN (Question.from_buffer fuel) hp.1.total_questions hp.2).bind fun qp =>
  (readListN (Record.from_buffer fuel) hp.1.total_answer_records qp.2).bind fun ansp =>
  (readListN (Record.from_buffer fuel) hp.1.total_authority_records ansp.2).bind fun autp =>
  (readListN (Record.from_buffer fuel) hp.1.total_additional_records autp.2).map fun addp =>
  (⟨hp.1, qp.1, ansp.1, autp.1, addp.1⟩, addp.2)

/-- The write loops of Serialize for Packet. -/
def serListN (ser : α → BytePacketBuffer → CRes BytePacketBuffer) :
    List α → BytePacketBuffer → CRes BytePacketBuffer
  | [], b => .ok b
  | x :: xs, b => (ser x b).bind (serListN ser xs)

/-- Serialize for Packet: the header is written exactly as stored (its
count fields are not recomputed from the sequence lengths), then the four
sequences in order. -/
def Packet.serialize (p : Packet) (b : BytePacketBuffer) : CRes BytePacketBuffer :=
  (p.header.serialize b).bind fun b =>
  (serListN Question.serialize p.questions b).bind fun b =>
  (serListN Record.serialize p.answers b).bind fun b =>
  (serListN Record.serialize p.authorities b).bind fun b =>
  serListN Record.serialize p.additionals b

/-- The three anyhow error messages that Resolver::recursive_lookup can
produce, as an error enum. -/
inductive ResolveErr where
  | nxDomain (qname : String)
  | noAuthoritativeNameServers
  | nameServerIpNotFound
deriving DecidableEq

/-- Outcome of a resolver run: success, one of the errors above, or fuel
exhaustion of the embedding (the Rust loop has no bound of its own). -/
inductive RRes (α : Type) where
  | ok (a : α)
  | err (e : ResolveErr)
  | spin
deriving DecidableEq

/-- Resolver::authoritative_name_servers: every NS-variant record of the
slice, in order.  No condition on the owner name is applied. -/
def authoritative_name_servers (records : List Record) : List Records.AuthoritativeNameServer :=
  records.filterMap fun r =>
    match r with
    | .authoritativeNameServer ns => some ns
    | _ => none

/-- Resolver::name_server_addr: the address of the first A record whose
domain equals the chosen name-server name. -/
def name_server_addr (name_server : String) (records : List Record) : Option Nat :=
  (((records.filterMap fun r =>
      match r with
      | .a a => some a
      | _ => none).filter fun a => a.domain == name_server).map fun a => a.ip).head?

/-- Resolver::recursive_lookup.  The network round trip of
Resolver::lookup is abstracted as the oracle parameter, which maps
(qname, qtype, server ip) to the parsed upstream response; the random
root pick of Resolver::resolve is the rootServer parameter.  The source
loops and recurses without any bound: fuel only counts unfoldings of the
embedding, and a spin result for every fuel value means the source never
returns. -/
def recursive_lookup (oracle : String → QueryType → Nat → Packet) (recursive : Bool)
    (rootServer : Nat) : Nat → String → QueryType → Nat → Bool → RRes Packet
  | 0, _, _, _, _ => .spin
  | fuel + 1, qname, qtype, server_ip, recursion_desired =>
    let response := oracle qname qtype server_ip
    if !response.answers.isEmpty && response.header.result_code == ResultCode.noError then
      .ok response
    else if response.header.result_code == ResultCode.nxDomain then
      .err (.nxDomain qname)
    else if !recursive || !recursion_desired then
      .ok response
    else
      match (authoritative_name_servers response.authorities).head? with
      | none => .err .noAuthoritativeNameServers
      | some ns =>
        match name_server_addr ns.ns_name response.additionals with
        | some ip => recursive_lookup oracle recursive rootServer fuel qname qtype ip recursion_desired
        | none =>
          match recursive_lookup oracle recursive rootServer fuel ns.ns_name .a rootServer true with
          | .ok ns_response =>
            match ((ns_response.answers.filterMap fun r =>
                match r with
                | .a a => some a.ip
                | _ => none)).head? with
            | some ip =>
              recursive_lookup oracle recursive rootServer fuel qname qtype ip recursion_desired
            | none => .err .nameServerIpNotFound
          | .err e => .err e
          | .spin => .spin

/-- Resolver::resolve: start recursive_lookup at the picked root server. -/
def resolve (oracle : String → QueryType → Nat → Packet) (recursive : Bool) (rootServer : Nat)
    (fuel : Nat) (qname : String) (qtype : QueryType) (recursion_desired : Bool) : RRes Packet :=
  recursive_lookup oracle recursive rootServer fuel qname qtype rootServer recursion_desired

/-- A formalisation of the referral choice the specification describes
(section 4.6 step 5): the first record of authorities whose variant is NS
and whose owner name is a suffix of the queried name.  This definition
follows the words of the specification, for comparison with
authoritative_name_servers above, which the source actually uses. -/
def specReferralChoice (qname : String) (authorities : List Record) :
    Option Records.AuthoritativeNameServer :=
  ((authoritative_name_servers authorities).filter fun ns =>
    ns.domain.data.isSuffixOf qname.data).head?

/-- Outcome of one handler task of src/resolver/src/server.rs. -/
inductive HandlerOutcome where
  | sent (response : Packet) (datagram : List Nat)
  | errored
  | fatal
  | spin
deriving DecidableEq

/-- Handler::run.  The resolver call is abstracted as an oracle from
(name, qtype, recursion_desired) to the resolver outcome.  Note the
behaviour under resolver failure: the question mark operator on
self.resolver.resolve propagates the error, the handler returns Err and
no datagram is sent (the listener only logs the error). -/
def handler_run (resolverRecursive : Bool)
    (resolver : String → QueryType → Bool → RRes Packet)
    (request_data : List Nat) (fuel : Nat) : HandlerOutcome :=
  match Packet.from_buffer fuel (from_raw_data request_data) with
  | .oor _ _ => .fatal
  | .fatal => .fatal
  | .spin => .spin
  | .ok rp =>
    let request := rp.1
    let finish := fun (response : Packet) =>
      let stamped : Packet :=
        { response with
          header :=
            { response.header with
              id := request.header.id
              recursion_desired := request.header.recursion_desired
              recursion_available := resolverRecursive
              is_response := true } }
      match stamped.serialize bpbNew with
      | .ok b => HandlerOutcome.sent stamped (bpbBytes b)
      | .oor _ _ => HandlerOutcome.errored
      | .fatal => HandlerOutcome.fatal
      | .spin => HandlerOutcome.spin
    -- Vec::pop takes the question at the back of the vector.
    match request.questions.getLast? with
    | none => finish Packet.new
    | some q =>
      match resolver q.name q.qtype request.header.recursion_desired with
      | .ok resp => finish resp
      | .err _ => .errored
      | .spin => .spin

/-! Observation helpers used by theorem statements. -/

/-- The big-endian 16-bit word stored at offset i of a byte store. -/
def wireU16 (f : Nat → Nat) (i : Nat) : Nat := 256 * f i + f (i + 1)

/-- wireU16 of a successful serialization result. -/
def okWireU16 : CRes BytePacketBuffer → Nat → Option Nat
  | .ok b, i => some (wireU16 b.buf i)
  | _, _ => none

/-- Final cursor of a successful serialization result. -/
def okPos : CRes BytePacketBuffer → Option Nat
  | .ok b => some b.pos
  | _ => none

/-- Authority and additional counts of a decoded header. -/
def okNsAr : CRes (Header × BytePacketBuffer) → Option (Nat × Nat)
  | .ok hp => some (hp.1.total_authority_records, hp.1.total_additional_records)
  | _ => none

/-- Serialize a record into a fresh buffer, then decode its emitted bytes
(this is the round trip the specification describes). -/
def recordRoundTrip (fuel : Nat) (r : Record) : CRes Record :=
  (Record.serialize r bpbNew).bind fun b =>
  (Record.from_buffer fuel (from_raw_data (bpbBytes b))).map Prod.fst

/-! Concrete inputs used by the theorems below. -/

/-- A 512-byte packet whose first two bytes C0 00 form a compression
pointer that points at itself (offset 0). -/
def cycleBuf : BytePacketBuffer := from_raw_data [192, 0]

/-- An MX record with one-label names; its rdata is 5 bytes
(2 preference bytes plus the 3-byte qname of "b"). -/
def mxExample : Records.MailExchange := ⟨"a", 1, 0, 10, "b"⟩

/-- A 12-byte wire header with qd = an = 0, ns = 1, ar = 2. -/
def c9HeaderBytes : List Nat := [0, 0, 0, 0, 0, 0, 0, 0, 0, 1, 0, 2]

/-- A packet whose caller left qdcount = 5 in the header while the
questions sequence is empty. -/
def c1Packet : Packet :=
  { Packet.new with header := { Header.new with total_questions := 5 } }

/-- An Unknown record carrying a raw 3-byte payload and type code 17. -/
def c4UnknownRecord : Record := .unknown "x" (.unknown 17) 1 60 [1, 2, 3]

/-- An upstream response that is a referral: no answers, NoError, one NS
in authorities and its glue A record (1.2.3.4) in additionals. -/
def loopReferralResponse : Packet :=
  { header := Header.new
    questions := []
    answers := []
    authorities := [.authoritativeNameServer ⟨"com", 1, 60, "ns.com"⟩]
    additionals := [.a ⟨"ns.com", 1, 60, 16909060⟩] }

/-- A malicious upstream that answers every query with the same referral,
whose glue points back into the loop. -/
def loopOracle : String → QueryType → Nat → Packet := fun _ _ _ => loopReferralResponse

/-- A NoError response holding one A answer for www.example.com. -/
def answerPacket : Packet :=
  { header := Header.new
    questions := []
    answers := [.a ⟨"www.example.com", 1, 60, 84281096⟩]
    authorities := []
    additionals := [] }

/-- A referral whose only NS record has owner name unrelated.org, which is
not a suffix of the queried name www.example.com, with glue for its
target ns.evil at address 7. -/
def referralNonSuffix : Packet :=
  { header := Header.new
    questions := []
    answers := []
    authorities := [.authoritativeNameServer ⟨"unrelated.org", 1, 60, "ns.evil"⟩]
    additionals := [.a ⟨"ns.evil", 1, 60, 7⟩] }

/-- Upstream map for the referral scenario: the root (server 99) answers
with the non-matching referral, any other server returns the final
answer. -/
def c2Oracle : String → QueryType → Nat → Packet := fun _ _ s =>
  if s = 99 then referralNonSuffix else answerPacket

/-- Wire bytes of a request with id 0, one question (name "a", type A,
class IN). -/
def requestBytes : List Nat := [0, 0, 0, 0, 0, 1, 0, 0, 0, 0, 0, 0, 1, 97, 0, 0, 1, 0, 1]

/-! Vocabulary for the round-trip theorems. -/

/-- The dot separator char. -/
def dotChar : Char := Char.ofNat 46

/-- An ASCII char that the lossy lower-casing decode maps to itself:
below 128 and not an upper-case letter. -/
def goodChar (c : Char) : Prop := c.toNat < 128 ∧ ¬(65 ≤ c.toNat ∧ c.toNat ≤ 90)

/-- A wire-encodable label: nonempty, at most 63 chars, all good ASCII. -/
def goodLabel (l : List Char) : Prop := l ≠ [] ∧ l.length ≤ 63 ∧ ∀ c ∈ l, goodChar c

/-- Every label of the dotted name is wire encodable. -/
def goodName (s : String) : Prop := ∀ l ∈ splitDot s, goodLabel l

instance (c : Char) : Decidable (goodChar c) := by unfold goodChar; infer_instance

instance (l : List Char) : Decidable (goodLabel l) := by unfold goodLabel; infer_instance

instance (s : String) : Decidable (goodName s) := by unfold goodName; infer_instance

/-- The wire bytes of a label list: length byte and raw bytes per label,
then the terminating zero. -/
def qnameBytes (ls : List (List Char)) : List Nat :=
  (ls.map fun l => (labelBytes l).length :: labelBytes l).flatten ++ [0]

/-- The wire bytes of a dotted name. -/
def qnb (s : String) : List Nat := qnameBytes (splitDot s)

/-- Big-endian byte lists of 16- and 32-bit values. -/
def u16be (v : Nat) : List Nat := [(v >>> 8) % 256, v % 256]

def u32be (v : Nat) : List Nat :=
  [(v >>> 24) % 256, (v >>> 16) % 256, (v >>> 8) % 256, v % 256]

/-- The exact bytes each known record variant serializes to. -/
def recBytesA (r : Records.A) : List Nat :=
  qnb r.domain ++ u16be 1 ++ u16be 1 ++ u32be (r.ttl % 4294967296) ++ u16be 4 ++ u32be r.ip

def recBytesNS (r : Records.AuthoritativeNameServer) : List Nat :=
  qnb r.domain ++ u16be 2 ++ u16be 1 ++ u32be (r.ttl % 4294967296)
    ++ u16be ((qnb r.ns_name).length % 65536) ++ qnb r.ns_name

def recBytesCN (r : Records.CName) : List Nat :=
  qnb r.domain ++ u16be 5 ++ u16be 1 ++ u32be (r.ttl % 4294967296)
    ++ u16be ((qnb r.aliasName).length % 65536) ++ qnb r.aliasName

def recBytesMX (r : Records.MailExchange) : List Nat :=
  qnb r.domain ++ u16be 15 ++ u16be 1 ++ u32be (r.ttl % 4294967296)
    ++ u16be (((qnb r.exchange).length + 6) % 65536) ++ u16be r.preference ++ qnb r.exchange

/-- A record the round trip can be stated for: a known variant with
encodable names, class 1 (the serializers write the constant 1), and
field values inside their Rust integer types. -/
def GoodRecord : Record → Prop
  | .a r => goodName r.domain ∧ r.rclass = 1 ∧ r.ttl < 4294967296 ∧ r.ip < 4294967296
  | .authoritativeNameServer r =>
    goodName r.domain ∧ goodName r.ns_name ∧ r.rclass = 1 ∧ r.ttl < 4294967296
  | .canonicalName r =>
    goodName r.domain ∧ goodName r.aliasName ∧ r.rclass = 1 ∧ r.ttl < 4294967296
  | .mailExchange r =>
    goodName r.domain ∧ goodName r.exchange ∧ r.rclass = 1 ∧ r.ttl < 4294967296
      ∧ r.preference < 65536
  | .unknown _ _ _ _ _ => False

/-- The byte store f holds exactly the bytes bs starting at position p. -/
def agreesAt (f : Nat → Nat) (p : Nat) (bs : List Nat) : Prop :=
  ∀ i, i < bs.length → f (p + i) = bs.getD i 0

/-- The chars the qname decode loop accumulates: each label is appended
after the pending delimiter, which is a dot from the second label on. -/
def appendLabels : List Char → List Char → List (List Char) → List Char
  | out, _, [] => out
  | out, delim, l :: rest => appendLabels (out ++ delim ++ l) [dotChar] rest

/-- Labels joined with dots. -/
def joinSep (sep : Char) : List (List Char) → List Char
  | [] => []
  | [l] => l
  | l :: rest => l ++ sep :: joinSep sep rest

/-! Basic lemmas. -/

theorem CRes.bind_eq_ok {x : CRes α} {f : α → CRes β} {c : β} :
    x.bind f = .ok c ↔ ∃ a, x = .ok a ∧ f a = .ok c := by
  cases x <;> simp [CRes.bind]

theorem CRes.map_eq_ok {x : CRes α} {f : α → β} {c : β} :
    x.map f = .ok c ↔ ∃ a, x = .ok a ∧ f a = c := by
  cases x <;> simp [CRes.map]

@[simp] theorem setB_same (f : Nat → Nat) (i v : Nat) : setB f i v i = v % 256 := by
  simp [setB]

theorem setB_other (f : Nat → Nat) {i j : Nat} (v : Nat) (h : j ≠ i) : setB f i v j = f j := by
  simp [setB, h]

/-- C5: the write half of the claim holds (a write crossing 512 fails with
OutOfRange naming the post-write index), but the read half does not: the
read guards use `pos > 512` or a strict assert, so a deserialize_u8 at
position 512 aborts on the array index instead of returning OutOfRange,
get_u8 at index 512 aborts the same way, and read_n aborts even for the
in-range read of the last 4 bytes (positions 508 to 511). -/
theorem c5_read_bounds_divergence :
    serialize_u8 ⟨fun _ => 0, 512⟩ 7 = .oor 513 512
      ∧ deserialize_u8 ⟨fun _ => 0, 512⟩ = .fatal
      ∧ get_u8 ⟨fun _ => 0, 0⟩ 512 = .fatal
      ∧ read_n ⟨fun _ => 0, 508⟩ 4 = .fatal := by
  refine ⟨?_, ?_, ?_, ?_⟩ <;> rfl

/-- C7: the MX serializer computes position - size_pos + 2 without the
parentheses of the claimed formula, so the back-patched rdlength word
(at offset 11 for this record) is 9 while the rdata written after the
length field is 18 - (11 + 2) = 5 bytes. -/
theorem c7_mx_rdlength_divergence :
    okWireU16 (mxExample.serialize bpbNew) 11 = some 9
      ∧ okPos (mxExample.serialize bpbNew) = some 18
      ∧ 18 - (11 + 2) = 5
      ∧ (9 : Nat) ≠ 18 - (11 + 2) := by
  refine ⟨by decide, by decide, by decide, by decide⟩

/-- C9: on a wire header whose nscount word is 1 and arcount word is 2,
the decoder of src/dns/src/header.rs assigns total_authority_records
twice (so it ends at 2, the arcount word) and leaves
total_additional_records at 0, while the decoder of
src/protocol/src/header.rs assigns each count to its own field. -/
theorem c9_dns_header_counts_divergence :
    okNsAr (dnsHeader_from_buffer (from_raw_data c9HeaderBytes)) = some (2, 0)
      ∧ okNsAr (Header.from_buffer (from_raw_data c9HeaderBytes)) = some (1, 2) := by
  refine ⟨by decide, by decide⟩

theorem cycleBuf_at_0 : cycleBuf.buf 0 = 192 := by decide

theorem cycleBuf_at_1 : cycleBuf.buf 1 = 0 := by decide

/-- One unfolding of the deserialize_qname loop on the self-pointer, in
the jumped state: the working position goes back to 0 and nothing else
changes. -/
theorem deserialize_cycle_step (fuel : Nat) (cur : Nat) (out delim : List Char) :
    deserializeQnameAux cycleBuf.buf (fuel + 1) 0 true cur out delim
      = deserializeQnameAux cycleBuf.buf fuel 0 true cur out delim := by
  simp only [deserializeQnameAux, cycleBuf_at_0, cycleBuf_at_1, DEFAULT_BUFFER_SIZE]
  norm_num [cycleBuf_at_1]

theorem deserialize_cycle_spin (fuel : Nat) :
    ∀ cur out delim, deserializeQnameAux cycleBuf.buf fuel 0 true cur out delim = .spin := by
  induction fuel with
  | zero => intro cur out delim; rfl
  | succ n ih => intro cur out delim; rw [deserialize_cycle_step]; exact ih cur out delim

/-- The first loop iteration on the self-pointer: it records the outer
cursor (position 2) and jumps back to offset 0. -/
theorem deserialize_cycle_first (fuel : Nat) :
    deserializeQnameAux cycleBuf.buf (fuel + 1) 0 false 0 [] []
      = deserializeQnameAux cycleBuf.buf fuel 0 true 2 [] [] := by
  simp only [deserializeQnameAux, cycleBuf_at_0, cycleBuf_at_1, DEFAULT_BUFFER_SIZE]
  norm_num [cycleBuf_at_1]

theorem read_cycle_step (fuel : Nat) (cur : Nat) (out delim : List Char) :
    readQnameAux cycleBuf.buf (fuel + 1) 0 true cur out delim
      = readQnameAux cycleBuf.buf fuel 0 true cur out delim := by
  simp only [readQnameAux, cycleBuf_at_0, cycleBuf_at_1, DEFAULT_BUFFER_SIZE]
  norm_num [cycleBuf_at_1]

theorem read_cycle_spin (fuel : Nat) :
    ∀ cur out delim, readQnameAux cycleBuf.buf fuel 0 true cur out delim = .spin := by
  induction fuel with
  | zero => intro cur out delim; rfl
  | succ n ih => intro cur out delim; rw [read_cycle_step]; exact ih cur out delim

theorem read_cycle_first (fuel : Nat) :
    readQnameAux cycleBuf.buf (fuel + 1) 0 false 0 [] []
      = readQnameAux cycleBuf.buf fuel 0 true 2 [] [] := by
  simp only [readQnameAux, cycleBuf_at_0, cycleBuf_at_1, DEFAULT_BUFFER_SIZE]
  norm_num [cycleBuf_at_1]

/-- C3: the claim asks for a bound on pointer chasing with a
malformed-name error on excess; neither qname decoder has any such
bound.  On the 512-byte buffer whose first bytes C0 00 point at offset
0, both deserialize_qname and read_qname run forever: for every fuel
value the embedding is still running (spin), so no MalformedName-style
failure, and no result at all, is ever produced. -/
theorem c3_pointer_cycle_spins :
    ∀ fuel, deserialize_qname fuel cycleBuf = .spin ∧ read_qname fuel cycleBuf = .spin := by
  intro fuel
  constructor
  · cases fuel with
    | zero => rfl
    | succ n =>
      show CRes.map _ _ = _
      rw [show cycleBuf.pos = 0 from rfl, deserialize_cycle_first, deserialize_cycle_spin]
      rfl
  · cases fuel with
    | zero => rfl
    | succ n =>
      show CRes.map _ _ = _
      rw [show cycleBuf.pos = 0 from rfl, read_cycle_first, read_cycle_spin]
      rfl

/-- One iteration of recursive_lookup against the looping upstream: the
referral is taken, the glue address 16909060 becomes the next server, and
the loop continues. -/
theorem c6_loop_step (fuel ip : Nat) :
    recursive_lookup loopOracle true 99 (fuel + 1) "www.example.com" .a ip true
      = recursive_lookup loopOracle true 99 fuel "www.example.com" .a 16909060 true := by
  simp only [recursive_lookup, loopOracle, loopReferralResponse, authoritative_name_servers,
    name_server_addr, Header.new, List.filterMap, List.filter, List.map, List.head?]
  norm_num
  intro h
  exact absurd h (by decide)

theorem c6_loop_spins_any_server (fuel : Nat) :
    ∀ ip, recursive_lookup loopOracle true 99 fuel "www.example.com" .a ip true = .spin := by
  induction fuel with
  | zero => intro ip; rfl
  | succ n ih => intro ip; rw [c6_loop_step]; exact ih 16909060

/-- C6: the source imposes no referral iteration cap and no glue recursion
cap, and has no resolution-limit error at all: against an upstream that
always answers with the same referral and glue, resolve never returns for
any fuel value (spin for every fuel), instead of failing with a
resolution-limit-exceeded error as the claim states. -/
theorem c6_referral_loop_spins :
    ∀ fuel, resolve loopOracle true 99 fuel "www.example.com" .a true = .spin := by
  intro fuel
  exact c6_loop_spins_any_server fuel 99

/-! Characterizations of the primitive serializers. -/

theorem serialize_u8_eq_ok {b b2 : BytePacketBuffer} {v : Nat} :
    serialize_u8 b v = .ok b2
      ↔ b.pos + 1 ≤ DEFAULT_BUFFER_SIZE ∧ b2 = ⟨setB b.buf b.pos v, b.pos + 1⟩ := by
  by_cases hc : b.pos + 1 > DEFAULT_BUFFER_SIZE
  · simp only [serialize_u8, if_pos hc]
    constructor
    · intro h; cases h
    · intro ⟨h1, _⟩; omega
  · simp only [serialize_u8, if_neg hc]
    constructor
    · intro h; cases h; exact ⟨by omega, rfl⟩
    · intro ⟨_, h⟩; rw [h]

theorem serialize_u16_eq_ok {b b2 : BytePacketBuffer} {v : Nat} :
    serialize_u16 b v = .ok b2
      ↔ b.pos + 2 ≤ DEFAULT_BUFFER_SIZE
        ∧ b2 = ⟨setB (setB b.buf b.pos (v >>> 8)) (b.pos + 1) v, b.pos + 2⟩ := by
  by_cases hc : b.pos + 2 > DEFAULT_BUFFER_SIZE
  · simp only [serialize_u16, if_pos hc]
    constructor
    · intro h; cases h
    · intro ⟨h1, _⟩; omega
  · simp only [serialize_u16, if_neg hc]
    constructor
    · intro h; cases h; exact ⟨by omega, rfl⟩
    · intro ⟨_, h⟩; rw [h]

theorem serialize_u32_eq_ok {b b2 : BytePacketBuffer} {v : Nat} :
    serialize_u32 b v = .ok b2
      ↔ b.pos + 4 ≤ DEFAULT_BUFFER_SIZE
        ∧ b2 = ⟨setB (setB (setB (setB b.buf b.pos (v >>> 24)) (b.pos + 1) (v >>> 16))
            (b.pos + 2) (v >>> 8)) (b.pos + 3) v, b.pos + 4⟩ := by
  by_cases hc : b.pos + 4 > DEFAULT_BUFFER_SIZE
  · simp only [serialize_u32, if_pos hc]
    constructor
    · intro h; cases h
    · intro ⟨h1, _⟩; omega
  · simp only [serialize_u32, if_neg hc]
    constructor
    · intro h; cases h; exact ⟨by omega, rfl⟩
    · intro ⟨_, h⟩; rw [h]

theorem seekB_eq_ok {b b2 : BytePacketBuffer} {p : Nat} :
    seekB b p = .ok b2 ↔ p ≤ DEFAULT_BUFFER_SIZE ∧ b2 = ⟨b.buf, p⟩ := by
  by_cases hc : p > DEFAULT_BUFFER_SIZE
  · simp only [seekB, if_pos hc]
    constructor
    · intro h; cases h
    · intro ⟨h1, _⟩; omega
  · simp only [seekB, if_neg hc]
    constructor
    · intro h; cases h; exact ⟨by omega, rfl⟩
    · intro ⟨_, h⟩; rw [h]

/-- writeBytes leaves every index outside [p, p + length) unchanged. -/
theorem writeBytes_out (bs : List Nat) :
    ∀ (f : Nat → Nat) (p j : Nat), (j < p ∨ p + bs.length ≤ j) → writeBytes f p bs j = f j := by
  induction bs with
  | nil => intro f p j _; rfl
  | cons v vs ih =>
    intro f p j hj
    show writeBytes (setB f p v) (p + 1) vs j = f j
    rw [ih (setB f p v) (p + 1) j (by simp at hj ⊢; omega)]
    exact setB_other f v (by simp at hj; omega)

/-- writeBytes stores each byte of the list (masked to u8) at its index. -/
theorem writeBytes_in (bs : List Nat) :
    ∀ (f : Nat → Nat) (p i : Nat), i < bs.length → writeBytes f p bs (p + i) = bs.getD i 0 % 256 := by
  induction bs with
  | nil => intro f p i h; simp at h
  | cons v vs ih =>
    intro f p i h
    show writeBytes (setB f p v) (p + 1) vs (p + i) = _
    cases i with
    | zero =>
      rw [writeBytes_out vs _ _ _ (Or.inl (by omega))]
      simp [setB]
    | succ k =>
      have : p + (k + 1) = (p + 1) + k := by omega
      rw [this, ih (setB f p v) (p + 1) k (by simp at h; omega)]
      rfl

/-- b2 extends b: the cursor moved forward and every byte outside the
window [b.pos, b2.pos) is unchanged. -/
def Extends (b b2 : BytePacketBuffer) : Prop :=
  b.pos ≤ b2.pos
    ∧ (∀ j, j < b.pos → b2.buf j = b.buf j)
    ∧ (∀ j, b2.pos ≤ j → b2.buf j = b.buf j)

theorem extends_refl (b : BytePacketBuffer) : Extends b b :=
  ⟨Nat.le_refl _, fun _ _ => Eq.refl _, fun _ _ => Eq.refl _⟩

theorem Extends.trans {a b c : BytePacketBuffer} (h1 : Extends a b) (h2 : Extends b c) :
    Extends a c := by
  obtain ⟨m1, lo1, hi1⟩ := h1
  obtain ⟨m2, lo2, hi2⟩ := h2
  refine ⟨Nat.le_trans m1 m2, fun j hj => ?_, fun j hj => ?_⟩
  · rw [lo2 j (by omega), lo1 j hj]
  · rw [hi2 j hj, hi1 j (by omega)]

theorem extends_u8 {b b2 : BytePacketBuffer} {v : Nat} (h : serialize_u8 b v = .ok b2) :
    Extends b b2 := by
  obtain ⟨_, h2⟩ := serialize_u8_eq_ok.mp h
  subst h2
  refine ⟨by dsimp only; omega, fun j hj => ?_, fun j hj => ?_⟩
  · exact setB_other _ _ (by omega)
  · dsimp only at hj
    exact setB_other _ _ (by omega)

theorem extends_u16 {b b2 : BytePacketBuffer} {v : Nat} (h : serialize_u16 b v = .ok b2) :
    Extends b b2 := by
  obtain ⟨_, h2⟩ := serialize_u16_eq_ok.mp h
  subst h2
  refine ⟨by dsimp only; omega, fun j hj => ?_, fun j hj => ?_⟩
  · show setB (setB b.buf b.pos (v >>> 8)) (b.pos + 1) v j = b.buf j
    rw [setB_other _ _ (by omega), setB_other _ _ (by omega)]
  · dsimp only at hj
    show setB (setB b.buf b.pos (v >>> 8)) (b.pos + 1) v j = b.buf j
    rw [setB_other _ _ (by omega), setB_other _ _ (by omega)]

theorem extends_u32 {b b2 : BytePacketBuffer} {v : Nat} (h : serialize_u32 b v = .ok b2) :
    Extends b b2 := by
  obtain ⟨_, h2⟩ := serialize_u32_eq_ok.mp h
  subst h2
  refine ⟨by dsimp only; omega, fun j hj => ?_, fun j hj => ?_⟩
  · show setB (setB (setB (setB b.buf b.pos (v >>> 24)) (b.pos + 1) (v >>> 16))
        (b.pos + 2) (v >>> 8)) (b.pos + 3) v j = b.buf j
    rw [setB_other _ _ (by omega), setB_other _ _ (by omega),
      setB_other _ _ (by omega), setB_other _ _ (by omega)]
  · dsimp only at hj
    show setB (setB (setB (setB b.buf b.pos (v >>> 24)) (b.pos + 1) (v >>> 16))
        (b.pos + 2) (v >>> 8)) (b.pos + 3) v j = b.buf j
    rw [setB_other _ _ (by omega), setB_other _ _ (by omega),
      setB_other _ _ (by omega), setB_other _ _ (by omega)]

theorem extends_serializeLabels {ls : List (List Char)} :
    ∀ {b b2 : BytePacketBuffer}, serializeLabels ls b = .ok b2 → Extends b b2 := by
  induction ls with
  | nil => intro b b2 h; cases h; exact extends_refl _
  | cons l rest ih =>
    intro b b2 h
    rw [show serializeLabels (l :: rest) b
        = (serialize_u8 b (labelBytes l).length).bind fun b1 =>
          if b1.pos + (labelBytes l).length > DEFAULT_BUFFER_SIZE then
            .oor (b1.pos + (labelBytes l).length) DEFAULT_BUFFER_SIZE
          else
            serializeLabels rest
              ⟨writeBytes b1.buf b1.pos (labelBytes l), b1.pos + (labelBytes l).length⟩
      from rfl] at h
    obtain ⟨b1, hb1, hrest⟩ := CRes.bind_eq_ok.mp h
    by_cases hc : b1.pos + (labelBytes l).length > DEFAULT_BUFFER_SIZE
    · rw [if_pos hc] at hrest; cases hrest
    · rw [if_neg hc] at hrest
      have h1 := extends_u8 hb1
      have hmid : Extends b1 ⟨writeBytes b1.buf b1.pos (labelBytes l), b1.pos + (labelBytes l).length⟩ := by
        refine ⟨by dsimp only; omega, fun j hj => ?_, fun j hj => ?_⟩
        · exact writeBytes_out _ _ _ _ (Or.inl hj)
        · dsimp only at hj
          exact writeBytes_out _ _ _ _ (Or.inr hj)
      exact (h1.trans hmid).trans (ih hrest)

theorem extends_qname {b b2 : BytePacketBuffer} {s : String}
    (h : serialize_qname b s = .ok b2) : Extends b b2 := by
  obtain ⟨b1, hb1, hz⟩ := CRes.bind_eq_ok.mp h
  exact (extends_serializeLabels hb1).trans (extends_u8 hz)

/-- A two-byte back patch at a position inside the already-written window
keeps the extension property. -/
theorem extends_patch2 {b bQ : BytePacketBuffer} {sp : Nat} (hpre : Extends b bQ)
    (hsp : b.pos ≤ sp) (hend : sp + 2 ≤ bQ.pos) (v : Nat) :
    Extends b ⟨setB (setB bQ.buf sp (v >>> 8)) (sp + 1) v, bQ.pos⟩ := by
  obtain ⟨hm, hlo, hhi⟩ := hpre
  refine ⟨by dsimp only; omega, fun j hj => ?_, fun j hj => ?_⟩
  · show setB (setB bQ.buf sp (v >>> 8)) (sp + 1) v j = b.buf j
    rw [setB_other _ _ (by omega), setB_other _ _ (by omega)]
    exact hlo j hj
  · dsimp only at hj
    show setB (setB bQ.buf sp (v >>> 8)) (sp + 1) v j = b.buf j
    rw [setB_other _ _ (by omega), setB_other _ _ (by omega)]
    exact hhi j hj

theorem extends_question {q : Question} {b b2 : BytePacketBuffer}
    (h : Question.serialize q b = .ok b2) : Extends b b2 := by
  obtain ⟨c1, h1, h⟩ := CRes.bind_eq_ok.mp h
  obtain ⟨c2, h2, h⟩ := CRes.bind_eq_ok.mp h
  exact ((extends_qname h1).trans (extends_u16 h2)).trans (extends_u16 h)

theorem extends_recordA {r : Records.A} {b b2 : BytePacketBuffer}
    (h : Records.A.serialize r b = .ok b2) : Extends b b2 := by
  obtain ⟨c1, h1, h⟩ := CRes.bind_eq_ok.mp h
  obtain ⟨c2, h2, h⟩ := CRes.bind_eq_ok.mp h
  obtain ⟨c3, h3, h⟩ := CRes.bind_eq_ok.mp h
  obtain ⟨c4, h4, h⟩ := CRes.bind_eq_ok.mp h
  obtain ⟨c5, h5, h⟩ := CRes.bind_eq_ok.mp h
  obtain ⟨c6, h6, h⟩ := CRes.bind_eq_ok.mp h
  obtain ⟨c7, h7, h⟩ := CRes.bind_eq_ok.mp h
  obtain ⟨c8, h8, h⟩ := CRes.bind_eq_ok.mp h
  exact ((((((((extends_qname h1).trans (extends_u16 h2)).trans (extends_u16 h3)).trans
    (extends_u32 h4)).trans (extends_u16 h5)).trans (extends_u8 h6)).trans
    (extends_u8 h7)).trans (extends_u8 h8)).trans (extends_u8 h)

theorem extends_recordNS {r : Records.AuthoritativeNameServer} {b b2 : BytePacketBuffer}
    (h : Records.AuthoritativeNameServer.serialize r b = .ok b2) : Extends b b2 := by
  obtain ⟨c1, h1, h⟩ := CRes.bind_eq_ok.mp h
  obtain ⟨c2, h2, h⟩ := CRes.bind_eq_ok.mp h
  obtain ⟨c3, h3, h⟩ := CRes.bind_eq_ok.mp h
  obtain ⟨c4, h4, h⟩ := CRes.bind_eq_ok.mp h
  obtain ⟨c5, h5, h⟩ := CRes.bind_eq_ok.mp h
  obtain ⟨c6, h6, h⟩ := CRes.bind_eq_ok.mp h
  obtain ⟨c7, h7, h⟩ := CRes.bind_eq_ok.mp h
  obtain ⟨c8, h8, h⟩ := CRes.bind_eq_ok.mp h
  -- c4 is the buffer right before the placeholder, c5 after it, c6 after rdata
  obtain ⟨hfit5, he5⟩ := serialize_u16_eq_ok.mp h5
  obtain ⟨hfit7, he7⟩ := seekB_eq_ok.mp h7
  obtain ⟨hfit8, he8⟩ := serialize_u16_eq_ok.mp h8
  obtain ⟨hfit9, he9⟩ := seekB_eq_ok.mp h
  have hpre : Extends b c4 :=
    (((extends_qname h1).trans (extends_u16 h2)).trans (extends_u16 h3)).trans (extends_u32 h4)
  have hmid : Extends c4 c6 := (extends_u16 h5).trans (extends_qname h6)
  have h5pos : c5.pos = c4.pos + 2 := by rw [he5]
  have h6pos : c5.pos ≤ c6.pos := (extends_qname h6).1
  subst he7
  subst he8
  subst he9
  dsimp only
  exact extends_patch2 (hpre.trans hmid) hpre.1 (by omega) _

theorem extends_recordCN {r : Records.CName} {b b2 : BytePacketBuffer}
    (h : Records.CName.serialize r b = .ok b2) : Extends b b2 := by
  obtain ⟨c1, h1, h⟩ := CRes.bind_eq_ok.mp h
  obtain ⟨c2, h2, h⟩ := CRes.bind_eq_ok.mp h
  obtain ⟨c3, h3, h⟩ := CRes.bind_eq_ok.mp h
  obtain ⟨c4, h4, h⟩ := CRes.bind_eq_ok.mp h
  obtain ⟨c5, h5, h⟩ := CRes.bind_eq_ok.mp h
  obtain ⟨c6, h6, h⟩ := CRes.bind_eq_ok.mp h
  obtain ⟨c7, h7, h⟩ := CRes.bind_eq_ok.mp h
  obtain ⟨c8, h8, h⟩ := CRes.bind_eq_ok.mp h
  obtain ⟨hfit5, he5⟩ := serialize_u16_eq_ok.mp h5
  obtain ⟨hfit7, he7⟩ := seekB_eq_ok.mp h7
  obtain ⟨hfit8, he8⟩ := serialize_u16_eq_ok.mp h8
  obtain ⟨hfit9, he9⟩ := seekB_eq_ok.mp h
  have hpre : Extends b c4 :=
    (((extends_qname h1).trans (extends_u16 h2)).trans (extends_u16 h3)).trans (extends_u32 h4)
  have hmid : Extends c4 c6 := (extends_u16 h5).trans (extends_qname h6)
  have h5pos : c5.pos = c4.pos + 2 := by rw [he5]
  have h6pos : c5.pos ≤ c6.pos := (extends_qname h6).1
  subst he7
  subst he8
  subst he9
  dsimp only
  exact extends_patch2 (hpre.trans hmid) hpre.1 (by omega) _

theorem extends_recordMX {r : Records.MailExchange} {b b2 : BytePacketBuffer}
    (h : Records.MailExchange.serialize r b = .ok b2) : Extends b b2 := by
  obtain ⟨c1, h1, h⟩ := CRes.bind_eq_ok.mp h
  obtain ⟨c2, h2, h⟩ := CRes.bind_eq_ok.mp h
  obtain ⟨c3, h3, h⟩ := CRes.bind_eq_ok.mp h
  obtain ⟨c4, h4, h⟩ := CRes.bind_eq_ok.mp h
  obtain ⟨c5, h5, h⟩ := CRes.bind_eq_ok.mp h
  obtain ⟨c6, h6, h⟩ := CRes.bind_eq_ok.mp h
  obtain ⟨c7, h7, h⟩ := CRes.bind_eq_ok.mp h
  obtain ⟨c8, h8, h⟩ := CRes.bind_eq_ok.mp h
  obtain ⟨c9, h9, h⟩ := CRes.bind_eq_ok.mp h
  obtain ⟨hfit5, he5⟩ := serialize_u16_eq_ok.mp h5
  obtain ⟨hfit8, he8⟩ := seekB_eq_ok.mp h8
  obtain ⟨hfit9, he9⟩ := serialize_u16_eq_ok.mp h9
  obtain ⟨hfita, hea⟩ := seekB_eq_ok.mp h
  have hpre : Extends b c4 :=
    (((extends_qname h1).trans (extends_u16 h2)).trans (extends_u16 h3)).trans (extends_u32 h4)
  have hmid : Extends c4 c7 :=
    ((extends_u16 h5).trans (extends_u16 h6)).trans (extends_qname h7)
  have h5pos : c5.pos = c4.pos + 2 := by rw [he5]
  have h6pos : c5.pos ≤ c7.pos := ((extends_u16 h6).trans (extends_qname h7)).1
  subst he8
  subst he9
  subst hea
  dsimp only
  exact extends_patch2 (hpre.trans hmid) hpre.1 (by omega) _

theorem extends_record {r : Record} {b b2 : BytePacketBuffer}
    (h : Record.serialize r b = .ok b2) : Extends b b2 := by
  cases r with
  | unknown d q c t dat => cases h; exact extends_refl _
  | a rec => exact extends_recordA h
  | authoritativeNameServer rec => exact extends_recordNS h
  | canonicalName rec => exact extends_recordCN h
  | mailExchange rec => exact extends_recordMX h

theorem extends_serListN {ser : α → BytePacketBuffer → CRes BytePacketBuffer}
    (hser : ∀ x {b b2}, ser x b = .ok b2 → Extends b b2) :
    ∀ (xs : List α) {b b2}, serListN ser xs b = .ok b2 → Extends b b2 := by
  intro xs
  induction xs with
  | nil => intro b b2 h; cases h; exact extends_refl _
  | cons x rest ih =>
    intro b b2 h
    obtain ⟨c, hc, hrest⟩ := CRes.bind_eq_ok.mp h
    exact (hser x hc).trans (ih hrest)

/-- Big-endian byte split followed by wireU16 recombination is the
identity on 16-bit values. -/
theorem wire_recombine {v : Nat} (hv : v < 65536) :
    256 * ((v >>> 8) % 256) + v % 256 = v := by
  have h1 : v >>> 8 = v / 256 := by
    rw [Nat.shiftRight_eq_div_pow]
  rw [h1, Nat.mod_eq_of_lt (by omega)]
  omega

/-- The header serializer writes the four count words at byte offsets 4 to
11 of a fresh buffer and leaves the cursor at 12. -/
theorem header_counts_bytes {h : Header} {b1 : BytePacketBuffer}
    (hs : Header.serialize h bpbNew = .ok b1) :
    b1.pos = 12
      ∧ b1.buf 4 = (h.total_questions >>> 8) % 256 ∧ b1.buf 5 = h.total_questions % 256
      ∧ b1.buf 6 = (h.total_answer_records >>> 8) % 256 ∧ b1.buf 7 = h.total_answer_records % 256
      ∧ b1.buf 8 = (h.total_authority_records >>> 8) % 256
      ∧ b1.buf 9 = h.total_authority_records % 256
      ∧ b1.buf 10 = (h.total_additional_records >>> 8) % 256
      ∧ b1.buf 11 = h.total_additional_records % 256 := by
  obtain ⟨c1, h1, hs⟩ := CRes.bind_eq_ok.mp hs
  obtain ⟨c2, h2, hs⟩ := CRes.bind_eq_ok.mp hs
  obtain ⟨c3, h3, hs⟩ := CRes.bind_eq_ok.mp hs
  obtain ⟨c4, h4, hs⟩ := CRes.bind_eq_ok.mp hs
  obtain ⟨c5, h5, hs⟩ := CRes.bind_eq_ok.mp hs
  obtain ⟨c6, h6, hs⟩ := CRes.bind_eq_ok.mp hs
  obtain ⟨_, e1⟩ := serialize_u16_eq_ok.mp h1
  subst e1
  obtain ⟨_, e2⟩ := serialize_u8_eq_ok.mp h2
  subst e2
  obtain ⟨_, e3⟩ := serialize_u8_eq_ok.mp h3
  subst e3
  obtain ⟨_, e4⟩ := serialize_u16_eq_ok.mp h4
  subst e4
  obtain ⟨_, e5⟩ := serialize_u16_eq_ok.mp h5
  subst e5
  obtain ⟨_, e6⟩ := serialize_u16_eq_ok.mp h6
  subst e6
  obtain ⟨_, e7⟩ := serialize_u16_eq_ok.mp hs
  subst e7
  refine ⟨by norm_num [bpbNew], ?_, ?_, ?_, ?_, ?_, ?_, ?_, ?_⟩ <;>
    norm_num [bpbNew, setB]

/-- C1 (amended): the count words that Packet serialization emits are the
header count fields exactly as the caller stored them; the serializer
does not recompute them from the sequence lengths. -/
theorem c1_serialized_counts_equal_header_fields (p : Packet) (b : BytePacketBuffer)
    (hs : Packet.serialize p bpbNew = .ok b)
    (hq : p.header.total_questions < 65536)
    (han : p.header.total_answer_records < 65536)
    (hns : p.header.total_authority_records < 65536)
    (har : p.header.total_additional_records < 65536) :
    wireU16 b.buf 4 = p.header.total_questions
      ∧ wireU16 b.buf 6 = p.header.total_answer_records
      ∧ wireU16 b.buf 8 = p.header.total_authority_records
      ∧ wireU16 b.buf 10 = p.header.total_additional_records := by
  obtain ⟨b1, hh, hs⟩ := CRes.bind_eq_ok.mp hs
  obtain ⟨b2, hqs, hs⟩ := CRes.bind_eq_ok.mp hs
  obtain ⟨b3, hans, hs⟩ := CRes.bind_eq_ok.mp hs
  obtain ⟨b4, haut, hs⟩ := CRes.bind_eq_ok.mp hs
  have hx : Extends b1 b :=
    (((extends_serListN (fun x {b b2} hx => extends_question hx) p.questions hqs).trans
      (extends_serListN (fun x {b b2} hx => extends_record hx) p.answers hans)).trans
      (extends_serListN (fun x {b b2} hx => extends_record hx) p.authorities haut)).trans
      (extends_serListN (fun x {b b2} hx => extends_record hx) p.additionals hs)
  obtain ⟨hpos, hb4, hb5, hb6, hb7, hb8, hb9, hb10, hb11⟩ := header_counts_bytes hh
  have heq : ∀ j, j < 12 → b.buf j = b1.buf j := fun j hj => hx.2.1 j (by omega)
  refine ⟨?_, ?_, ?_, ?_⟩
  · simp only [wireU16, heq 4 (by norm_num), heq 5 (by norm_num), hb4, hb5]
    exact wire_recombine hq
  · simp only [wireU16, heq 6 (by norm_num), heq 7 (by norm_num), hb6, hb7]
    exact wire_recombine han
  · simp only [wireU16, heq 8 (by norm_num), heq 9 (by norm_num), hb8, hb9]
    exact wire_recombine hns
  · simp only [wireU16, heq 10 (by norm_num), heq 11 (by norm_num), hb10, hb11]
    exact wire_recombine har

/-- Witness for C1 (amended) at a concrete packet. -/
theorem c1_serialized_counts_equal_header_fields_witness :
    wireU16 (match Packet.serialize c1Packet bpbNew with
      | .ok b => b.buf
      | _ => fun _ => 0) 4 = 5 := by
  have h := c1_serialized_counts_equal_header_fields c1Packet _ rfl
    (by decide) (by decide) (by decide) (by decide)
  exact h.1

/-- C1 counterexample: a packet whose header says qdcount = 5 while its
questions sequence is empty serializes with 5 in the qdcount word, not
the sequence length 0, refuting the claim that the emitted counts equal
the sequence lengths regardless of the header fields. -/
theorem c1_serialized_counts_counterexample :
    okWireU16 (Packet.serialize c1Packet bpbNew) 4 = some 5
      ∧ c1Packet.questions.length = 0
      ∧ okWireU16 (Packet.serialize c1Packet bpbNew) 4 ≠ some c1Packet.questions.length := by
  refine ⟨by decide, by decide, by decide⟩

/-- C2 counterexample: against a root whose referral carries a single NS
record whose owner name (unrelated.org) is not a suffix of the queried
name, the claim says the resolver has no referral target and returns that
referral response as its successful result.  The code instead follows the
non-matching NS through its glue and returns the answer obtained from the
glue server, a different packet. -/
theorem c2_referral_choice_counterexample :
    recursive_lookup c2Oracle true 99 2 "www.example.com" .a 99 true = .ok answerPacket
      ∧ specReferralChoice "www.example.com" referralNonSuffix.authorities = none
      ∧ c2Oracle "www.example.com" .a 99 = referralNonSuffix
      ∧ answerPacket ≠ referralNonSuffix := by
  refine ⟨by decide, by decide, by decide, by decide⟩

/-- C2 (amended): in the referral branch the resolver takes the first
NS-variant record of authorities with no owner-name suffix condition,
continuing at its glue address when additionals provide one; and when
authorities holds no NS record at all it fails with the
no-authoritative-name-servers error instead of returning the response. -/
theorem c2_referral_first_ns_no_suffix_check
    (oracle : String → QueryType → Nat → Packet) (root fuel ip : Nat)
    (qname : String) (qtype : QueryType) (resp : Packet)
    (hresp : oracle qname qtype ip = resp)
    (hnoans : resp.answers = [] ∨ resp.header.result_code ≠ .noError)
    (hnonx : resp.header.result_code ≠ .nxDomain) :
    (authoritative_name_servers resp.authorities = [] →
      recursive_lookup oracle true root (fuel + 1) qname qtype ip true
        = .err .noAuthoritativeNameServers)
      ∧ (∀ ns rest gip, authoritative_name_servers resp.authorities = ns :: rest →
          name_server_addr ns.ns_name resp.additionals = some gip →
          recursive_lookup oracle true root (fuel + 1) qname qtype ip true
            = recursive_lookup oracle true root fuel qname qtype gip true) := by
  have hstep : recursive_lookup oracle true root (fuel + 1) qname qtype ip true
      = match (authoritative_name_servers resp.authorities).head? with
        | none => .err .noAuthoritativeNameServers
        | some ns =>
          match name_server_addr ns.ns_name resp.additionals with
          | some gip => recursive_lookup oracle true root fuel qname qtype gip true
          | none =>
            match recursive_lookup oracle true root fuel ns.ns_name .a root true with
            | .ok ns_response =>
              match ((ns_response.answers.filterMap fun r =>
                  match r with
                  | .a a => some a.ip
                  | _ => none)).head? with
              | some gip => recursive_lookup oracle true root fuel qname qtype gip true
              | none => .err .nameServerIpNotFound
            | .err e => .err e
            | .spin => .spin := by
    rw [show recursive_lookup oracle true root (fuel + 1) qname qtype ip true
        = if !(oracle qname qtype ip).answers.isEmpty
              && (oracle qname qtype ip).header.result_code == ResultCode.noError then
            .ok (oracle qname qtype ip)
          else if (oracle qname qtype ip).header.result_code == ResultCode.nxDomain then
            .err (.nxDomain qname)
          else if !true || !true then
            .ok (oracle qname qtype ip)
          else
            match (authoritative_name_servers (oracle qname qtype ip).authorities).head? with
            | none => .err .noAuthoritativeNameServers
            | some ns =>
              match name_server_addr ns.ns_name (oracle qname qtype ip).additionals with
              | some gip => recursive_lookup oracle true root fuel qname qtype gip true
              | none =>
                match recursive_lookup oracle true root fuel ns.ns_name .a root true with
                | .ok ns_response =>
                  match ((ns_response.answers.filterMap fun r =>
                      match r with
                      | .a a => some a.ip
                      | _ => none)).head? with
                  | some gip => recursive_lookup oracle true root fuel qname qtype gip true
                  | none => .err .nameServerIpNotFound
                | .err e => .err e
                | .spin => .spin
      from rfl, hresp]
    have hc1 : (!resp.answers.isEmpty && resp.header.result_code == ResultCode.noError) = false := by
      rcases hnoans with hempty | hcode
      · rw [hempty]
        rfl
      · have : (resp.header.result_code == ResultCode.noError) = false := by
          simpa using hcode
        rw [this, Bool.and_false]
    have hc2 : (resp.header.result_code == ResultCode.nxDomain) = false := by
      simpa using hnonx
    rw [hc1, hc2]
    norm_num
  constructor
  · intro hempty
    rw [hstep, hempty]
    rfl
  · intro ns rest gip hhead hglue
    rw [hstep, hhead]
    show (match name_server_addr ns.ns_name resp.additionals with
      | some gip => recursive_lookup oracle true root fuel qname qtype gip true
      | none => _) = _
    rw [hglue]

/-- Witness for C2 (amended): the glue branch at the concrete referral. -/
theorem c2_referral_first_ns_no_suffix_check_witness :
    recursive_lookup c2Oracle true 99 2 "www.example.com" .a 99 true
      = recursive_lookup c2Oracle true 99 1 "www.example.com" .a 7 true :=
  (c2_referral_first_ns_no_suffix_check c2Oracle 99 1 99 "www.example.com" .a
      referralNonSuffix (by decide) (Or.inl (by decide)) (by decide)).2
    ⟨"unrelated.org", 1, 60, "ns.evil"⟩ [] 7 (by decide) (by decide)

/-- C8 counterexample: for a well-formed request with one question and a
resolver that fails, the handler outcome is errored: the error propagates
through the question mark operator and no datagram at all is sent, in
particular no ServFail response. -/
theorem c8_resolver_error_sends_nothing_counterexample :
    handler_run true (fun _ _ _ => .err (.nxDomain "a")) requestBytes 8 = .errored := by
  decide

/-- C8 (amended): whenever the parsed request still has a question and the
resolver invocation for it fails, the handler returns the error without
sending anything; the listener merely logs handler errors, so the client
receives no DNS reply. -/
theorem c8_resolver_error_sends_nothing (recursive : Bool)
    (resolver : String → QueryType → Bool → RRes Packet)
    (data : List Nat) (fuel : Nat) (rp : Packet × BytePacketBuffer) (q : Question)
    (e : ResolveErr)
    (hparse : Packet.from_buffer fuel (from_raw_data data) = .ok rp)
    (hq : rp.1.questions.getLast? = some q)
    (hres : resolver q.name q.qtype rp.1.header.recursion_desired = .err e) :
    handler_run recursive resolver data fuel = .errored := by
  unfold handler_run
  rw [hparse]
  dsimp only
  rw [hq]
  dsimp only
  rw [hres]

/-- Witness for C8 (amended) at the concrete request. -/
theorem c8_resolver_error_sends_nothing_witness :
    handler_run true (fun _ _ _ => .err .nameServerIpNotFound) requestBytes 16 = .errored := by
  exact c8_resolver_error_sends_nothing true _ requestBytes 16 _ _ _ rfl rfl rfl

/-- C10: from_raw_data is total and truncating: input beyond 512 bytes is
ignored (the buffer equals the one built from the first 512 bytes), the
tail of the buffer past the input is zero filled, copied bytes are the
input bytes, and a zero-length datagram decodes as a packet with zero
counts and empty sections rather than a malformed-packet error (the error
enum of the protocol crate has only OutOfRange, no malformed-packet
variant at all). -/
theorem c10_from_raw_data_total (data : List Nat) (k i : Nat)
    (h1 : i < data.length) (h2 : i < 512) :
    from_raw_data data = from_raw_data (data.take 512)
      ∧ (from_raw_data data).buf (data.length + k) = 0
      ∧ (from_raw_data data).buf i = data.getD i 0 % 256
      ∧ (Packet.from_buffer 1 (from_raw_data [])).map Prod.fst = .ok Packet.new := by
  refine ⟨?_, ?_, ?_, by decide⟩
  · have hb : ∀ j, (from_raw_data data).buf j = (from_raw_data (data.take 512)).buf j := by
      intro j
      simp only [from_raw_data, List.length_take, DEFAULT_BUFFER_SIZE]
      have hmin : min 512 (min 512 data.length) = min 512 data.length := by omega
      rw [hmin]
      by_cases hj : j < min 512 data.length
      · rw [if_pos hj, if_pos hj]
        have : (data.take 512).getD j 0 = data.getD j 0 := by
          rw [List.getD_eq_getElem?_getD, List.getD_eq_getElem?_getD,
            List.getElem?_take_of_lt (by omega)]
        rw [this]
      · rw [if_neg hj, if_neg hj]
    show BytePacketBuffer.mk _ 0 = BytePacketBuffer.mk _ 0
    exact congrArg (fun f => BytePacketBuffer.mk f 0) (funext hb)
  · simp only [from_raw_data, DEFAULT_BUFFER_SIZE]
    rw [if_neg (by omega)]
  · simp only [from_raw_data, DEFAULT_BUFFER_SIZE]
    rw [if_pos (by omega)]

/-- Witness for C10 at a concrete input. -/
theorem c10_from_raw_data_total_witness :
    from_raw_data [7, 8, 9] = from_raw_data ([7, 8, 9].take 512)
      ∧ (from_raw_data [7, 8, 9]).buf ([7, 8, 9].length + 5) = 0
      ∧ (from_raw_data [7, 8, 9]).buf 1 = [7, 8, 9].getD 1 0 % 256
      ∧ (Packet.from_buffer 1 (from_raw_data [])).map Prod.fst = .ok Packet.new :=
  c10_from_raw_data_total [7, 8, 9] 5 1 (by decide) (by decide)

/-! Label, char and split/join lemmas for the qname round trip. -/

theorem charUtf8_ascii {c : Char} (h : c.toNat < 128) : charUtf8 c = [c.toNat] := by
  simp [charUtf8, h]

theorem labelBytes_ascii {l : List Char} (h : ∀ c ∈ l, goodChar c) :
    labelBytes l = l.map Char.toNat := by
  induction l with
  | nil => rfl
  | cons c cs ih =>
    have hc := h c (List.mem_cons_self c cs)
    show (charUtf8 c ++ (cs.map charUtf8).flatten) = c.toNat :: cs.map Char.toNat
    rw [charUtf8_ascii hc.1]
    exact congrArg (c.toNat :: ·) (ih fun x hx => h x (List.mem_cons_of_mem c hx))

theorem labelBytes_length_ascii {l : List Char} (h : ∀ c ∈ l, goodChar c) :
    (labelBytes l).length = l.length := by
  rw [labelBytes_ascii h, List.length_map]

theorem labelBytes_lt {l : List Char} (h : ∀ c ∈ l, goodChar c) :
    ∀ v ∈ labelBytes l, v < 128 := by
  rw [labelBytes_ascii h]
  intro v hv
  obtain ⟨c, hc, hvc⟩ := List.mem_map.mp hv
  exact hvc ▸ (h c hc).1

theorem lossyLowerByte_good {c : Char} (h : goodChar c) : lossyLowerByte c.toNat = c := by
  obtain ⟨h1, h2⟩ := h
  rw [lossyLowerByte, if_neg h2, if_pos h1]
  exact Char.ofNat_toNat c

theorem lossyLower_labelBytes {l : List Char} (h : ∀ c ∈ l, goodChar c) :
    lossyLower (labelBytes l) = l := by
  rw [labelBytes_ascii h]
  induction l with
  | nil => rfl
  | cons c cs ih =>
    show lossyLowerByte c.toNat :: lossyLower (cs.map Char.toNat) = c :: cs
    rw [lossyLowerByte_good (h c (List.mem_cons_self c cs)),
      ih fun x hx => h x (List.mem_cons_of_mem c hx)]

theorem and192_of_le63' : ∀ n : Fin 64, ((n : Nat) &&& 192) = 0 := by decide

theorem and192_of_le63 {n : Nat} (h : n ≤ 63) : n &&& 192 = 0 :=
  and192_of_le63' ⟨n, by omega⟩

theorem splitAux_ne_nil (sep : Char) : ∀ (cs acc : List Char), splitAux sep cs acc ≠ [] := by
  intro cs
  induction cs with
  | nil => intro acc; simp [splitAux]
  | cons c cs ih =>
    intro acc
    by_cases hc : c = sep
    · simp [splitAux, hc]
    · simpa [splitAux, hc] using ih (c :: acc)

theorem joinSep_cons (sep : Char) (x : List Char) {rest : List (List Char)} (h : rest ≠ []) :
    joinSep sep (x :: rest) = x ++ sep :: joinSep sep rest := by
  cases rest with
  | nil => exact absurd rfl h
  | cons y ys => rfl

theorem joinSep_splitAux (sep : Char) :
    ∀ (cs acc : List Char), joinSep sep (splitAux sep cs acc) = acc.reverse ++ cs := by
  intro cs
  induction cs with
  | nil => intro acc; simp [splitAux, joinSep]
  | cons c cs ih =>
    intro acc
    by_cases hc : c = sep
    · rw [show splitAux sep (c :: cs) acc = acc.reverse :: splitAux sep cs [] by
          simp [splitAux, hc],
        joinSep_cons sep _ (splitAux_ne_nil sep cs []), ih []]
      simp [hc]
    · rw [show splitAux sep (c :: cs) acc = splitAux sep cs (c :: acc) by simp [splitAux, hc],
        ih (c :: acc)]
      simp

theorem appendLabels_eq : ∀ (ls : List (List Char)), ls ≠ [] →
    ∀ out delim, appendLabels out delim ls = out ++ delim ++ joinSep dotChar ls := by
  intro ls
  induction ls with
  | nil => intro h; exact absurd rfl h
  | cons l rest ih =>
    intro _ out delim
    cases rest with
    | nil =>
      show appendLabels (out ++ delim ++ l) [dotChar] [] = _
      simp [appendLabels, joinSep]
    | cons y ys =>
      show appendLabels (out ++ delim ++ l) [dotChar] (y :: ys) = _
      rw [ih (by simp) (out ++ delim ++ l) [dotChar], joinSep_cons dotChar l (by simp)]
      simp

theorem appendLabels_splitDot (s : String) :
    appendLabels [] [] (splitDot s) = s.data := by
  rw [appendLabels_eq (splitDot s) (splitAux_ne_nil dotChar s.data []) [] []]
  show [] ++ [] ++ joinSep dotChar (splitAux dotChar s.data []) = s.data
  rw [joinSep_splitAux dotChar s.data []]
  simp

/-! Byte-store agreement lemmas. -/

theorem agreesAt_append {f : Nat → Nat} {p : Nat} {xs ys : List Nat} :
    agreesAt f p (xs ++ ys) ↔ agreesAt f p xs ∧ agreesAt f (p + xs.length) ys := by
  constructor
  · intro h
    constructor
    · intro i hi
      rw [h i (by simp; omega), List.getD_eq_getElem?_getD, List.getD_eq_getElem?_getD,
        List.getElem?_append_left hi]
    · intro i hi
      have := h (xs.length + i) (by simp; omega)
      rw [List.getD_eq_getElem?_getD] at this
      rw [List.getD_eq_getElem?_getD, ← Nat.add_assoc] at *
      rw [this]
      congr 1
      rw [List.getElem?_append_right (by omega)]
      congr 1
      omega
  · intro ⟨h1, h2⟩ i hi
    by_cases hx : i < xs.length
    · rw [h1 i hx, List.getD_eq_getElem?_getD, List.getD_eq_getElem?_getD,
        List.getElem?_append_left hx]
    · have := h2 (i - xs.length) (by simp at hi; omega)
      rw [show p + xs.length + (i - xs.length) = p + i by omega] at this
      rw [this, List.getD_eq_getElem?_getD, List.getD_eq_getElem?_getD,
        List.getElem?_append_right (by omega)]

theorem agreesAt_mono {f g : Nat → Nat} (q : Nat) {p : Nat} {bs : List Nat}
    (h : agreesAt f p bs) (hpres : ∀ j, j < q → g j = f j) (hq : p + bs.length ≤ q) :
    agreesAt g p bs := by
  intro i hi
  rw [hpres (p + i) (by omega), h i hi]

/-! Exact byte contents produced by the serializers. -/

theorem agrees_u8 {b b2 : BytePacketBuffer} {v : Nat} (h : serialize_u8 b v = .ok b2) :
    b2.pos = b.pos + 1 ∧ agreesAt b2.buf b.pos [v % 256] := by
  obtain ⟨_, e⟩ := serialize_u8_eq_ok.mp h
  subst e
  refine ⟨rfl, fun i hi => ?_⟩
  simp only [List.length_cons, List.length_nil] at hi
  show writeBytes b.buf b.pos [v] (b.pos + i) = _
  rw [writeBytes_in [v] b.buf b.pos i (by simp; omega)]
  interval_cases i <;> rfl

theorem agrees_u16 {b b2 : BytePacketBuffer} {v : Nat} (h : serialize_u16 b v = .ok b2) :
    b2.pos = b.pos + 2 ∧ agreesAt b2.buf b.pos (u16be v) := by
  obtain ⟨_, e⟩ := serialize_u16_eq_ok.mp h
  subst e
  refine ⟨rfl, fun i hi => ?_⟩
  simp only [u16be, List.length_cons, List.length_nil] at hi
  show writeBytes b.buf b.pos [v >>> 8, v] (b.pos + i) = _
  rw [writeBytes_in [v >>> 8, v] b.buf b.pos i (by simp; omega)]
  interval_cases i <;> rfl

theorem agrees_u32 {b b2 : BytePacketBuffer} {v : Nat} (h : serialize_u32 b v = .ok b2) :
    b2.pos = b.pos + 4 ∧ agreesAt b2.buf b.pos (u32be v) := by
  obtain ⟨_, e⟩ := serialize_u32_eq_ok.mp h
  subst e
  refine ⟨rfl, fun i hi => ?_⟩
  simp only [u32be, List.length_cons, List.length_nil] at hi
  show writeBytes b.buf b.pos [v >>> 24, v >>> 16, v >>> 8, v] (b.pos + i) = _
  rw [writeBytes_in [v >>> 24, v >>> 16, v >>> 8, v] b.buf b.pos i (by simp; omega)]
  interval_cases i <;> rfl

theorem serializeLabels_spec :
    ∀ (ls : List (List Char)) {b b2 : BytePacketBuffer},
      (∀ l ∈ ls, goodLabel l) → serializeLabels ls b = .ok b2 →
      b2.pos = b.pos + ((ls.map fun l => (labelBytes l).length :: labelBytes l).flatten).length
        ∧ agreesAt b2.buf b.pos ((ls.map fun l => (labelBytes l).length :: labelBytes l).flatten) := by
  intro ls
  induction ls with
  | nil =>
    intro b b2 _ h
    cases h
    exact ⟨rfl, fun i hi => by simp at hi⟩
  | cons l rest ih =>
    intro b b2 hgood h
    rw [show serializeLabels (l :: rest) b
        = (serialize_u8 b (labelBytes l).length).bind fun b1 =>
          if b1.pos + (labelBytes l).length > DEFAULT_BUFFER_SIZE then
            .oor (b1.pos + (labelBytes l).length) DEFAULT_BUFFER_SIZE
          else
            serializeLabels rest
              ⟨writeBytes b1.buf b1.pos (labelBytes l), b1.pos + (labelBytes l).length⟩
      from rfl] at h
    obtain ⟨b1, hb1, h⟩ := CRes.bind_eq_ok.mp h
    by_cases hc : b1.pos + (labelBytes l).length > DEFAULT_BUFFER_SIZE
    · rw [if_pos hc] at h; cases h
    rw [if_neg hc] at h
    have hgl := hgood l (List.mem_cons_self l rest)
    have hgrest : ∀ x ∈ rest, goodLabel x := fun x hx => hgood x (List.mem_cons_of_mem l hx)
    obtain ⟨_, e1⟩ := serialize_u8_eq_ok.mp hb1
    subst e1
    obtain ⟨ihpos, ihagree⟩ := ih hgrest h
    have hext := extends_serializeLabels h
    have hlen63 : (labelBytes l).length ≤ 63 := by
      rw [labelBytes_length_ascii hgl.2.2]; exact hgl.2.1
    dsimp only at ihpos ihagree hext hc
    constructor
    · simp only [List.map, List.flatten, List.length_append, List.length_cons] at *
      omega
    · rw [show ((l :: rest).map fun x => (labelBytes x).length :: labelBytes x).flatten
          = ((labelBytes l).length :: labelBytes l)
            ++ ((rest.map fun x => (labelBytes x).length :: labelBytes x).flatten) from by
        simp [List.flatten]]
      rw [agreesAt_append]
      constructor
      · have hchunk : agreesAt
            (writeBytes (setB b.buf b.pos (labelBytes l).length) (b.pos + 1) (labelBytes l))
            b.pos ((labelBytes l).length :: labelBytes l) := by
          intro i hi
          simp only [List.length_cons] at hi
          cases i with
          | zero =>
            rw [writeBytes_out _ _ _ _ (Or.inl (by omega)), Nat.add_zero, setB_same,
              Nat.mod_eq_of_lt (by omega)]
            rfl
          | succ k =>
            have hk : k < (labelBytes l).length := by omega
            rw [show b.pos + (k + 1) = (b.pos + 1) + k by omega,
              writeBytes_in _ _ _ _ hk]
            have hvlt : (labelBytes l).getD k 0 < 128 := by
              have heq : (labelBytes l).getD k 0 = (labelBytes l)[k] := by
                rw [List.getD_eq_getElem?_getD, List.getElem?_eq_getElem hk]
                rfl
              rw [heq]
              exact labelBytes_lt hgl.2.2 _ (List.getElem_mem hk)
            rw [Nat.mod_eq_of_lt (by omega)]
            rfl
        refine agreesAt_mono (b.pos + 1 + (labelBytes l).length) hchunk
          (fun j hj => hext.2.1 j hj) ?_
        simp only [List.length_cons]
        omega
      · have harith : b.pos + ((labelBytes l).length :: labelBytes l).length
            = b.pos + 1 + (labelBytes l).length := by
          simp only [List.length_cons]; omega
        rw [harith]
        exact ihagree

theorem serialize_qname_spec {s : String} {b b2 : BytePacketBuffer}
    (hgood : goodName s) (h : serialize_qname b s = .ok b2) :
    b2.pos = b.pos + (qnb s).length ∧ agreesAt b2.buf b.pos (qnb s) ∧ b2.pos ≤ 512 := by
  obtain ⟨bL, hbL, hz⟩ := CRes.bind_eq_ok.mp h
  obtain ⟨hLpos, hLagree⟩ := serializeLabels_spec (splitDot s) hgood hbL
  obtain ⟨hfit, ez⟩ := serialize_u8_eq_ok.mp hz
  subst ez
  refine ⟨?_, ?_, ?_⟩
  · dsimp only
    simp only [qnb, qnameBytes, List.length_append, List.length_cons, List.length_nil]
    omega
  · rw [show qnb s
        = ((splitDot s).map fun l => (labelBytes l).length :: labelBytes l).flatten ++ [0]
      from rfl, agreesAt_append]
    constructor
    · exact agreesAt_mono bL.pos hLagree (fun j hj => setB_other _ _ (by omega)) (by omega)
    · intro i hi
      simp only [List.length_cons, List.length_nil] at hi
      interval_cases i
      show setB bL.buf bL.pos 0 (b.pos
        + ((splitDot s).map fun l => (labelBytes l).length :: labelBytes l).flatten.length + 0) = _
      rw [← hLpos, Nat.add_zero, setB_same]
      rfl
  · dsimp only
    simp only [DEFAULT_BUFFER_SIZE] at hfit
    omega

theorem agreesAt_pair {f : Nat → Nat} {p : Nat} {xs ys : List Nat}
    (hx : agreesAt f p xs) (hy : agreesAt f (p + xs.length) ys) : agreesAt f p (xs ++ ys) :=
  agreesAt_append.mpr ⟨hx, hy⟩

@[simp] theorem u16be_length (v : Nat) : (u16be v).length = 2 := rfl

@[simp] theorem u32be_length (v : Nat) : (u32be v).length = 4 := rfl

/-- The A record serializer emits exactly recBytesA into a fresh buffer. -/
theorem recA_spec {r : Records.A} {b2 : BytePacketBuffer}
    (hgood : goodName r.domain) (h : Records.A.serialize r bpbNew = .ok b2) :
    b2.pos = (recBytesA r).length ∧ agreesAt b2.buf 0 (recBytesA r)
      ∧ b2.pos ≤ 512 ∧ (∀ j, b2.pos ≤ j → b2.buf j = 0) := by
  obtain ⟨c1, h1, h⟩ := CRes.bind_eq_ok.mp h
  obtain ⟨c2, h2, h⟩ := CRes.bind_eq_ok.mp h
  obtain ⟨c3, h3, h⟩ := CRes.bind_eq_ok.mp h
  obtain ⟨c4, h4, h⟩ := CRes.bind_eq_ok.mp h
  obtain ⟨c5, h5, h⟩ := CRes.bind_eq_ok.mp h
  obtain ⟨c6, h6, h⟩ := CRes.bind_eq_ok.mp h
  obtain ⟨c7, h7, h⟩ := CRes.bind_eq_ok.mp h
  obtain ⟨c8, h8, h⟩ := CRes.bind_eq_ok.mp h
  obtain ⟨hq1, hqa, hq512⟩ := serialize_qname_spec hgood h1
  obtain ⟨hp2, ha2⟩ := agrees_u16 h2
  obtain ⟨hp3, ha3⟩ := agrees_u16 h3
  obtain ⟨hp4, ha4⟩ := agrees_u32 h4
  obtain ⟨hp5, ha5⟩ := agrees_u16 h5
  obtain ⟨hp6, ha6⟩ := agrees_u8 h6
  obtain ⟨hp7, ha7⟩ := agrees_u8 h7
  obtain ⟨hp8, ha8⟩ := agrees_u8 h8
  obtain ⟨hp9, ha9⟩ := agrees_u8 h
  have hfit9 := (serialize_u8_eq_ok.mp h).1
  have e2 := extends_u16 h2
  have e3 := extends_u16 h3
  have e4 := extends_u32 h4
  have e5 := extends_u16 h5
  have e6 := extends_u8 h6
  have e7 := extends_u8 h7
  have e8 := extends_u8 h8
  have e9 := extends_u8 h
  have x2 : Extends c2 b2 :=
    ((((((e3.trans e4).trans e5).trans e6).trans e7).trans e8).trans e9)
  have x1 : Extends c1 b2 := e2.trans x2
  have x3 : Extends c3 b2 := (((((e4.trans e5).trans e6).trans e7).trans e8).trans e9)
  have x4 : Extends c4 b2 := ((((e5.trans e6).trans e7).trans e8).trans e9)
  have x5 : Extends c5 b2 := (((e6.trans e7).trans e8).trans e9)
  have x6 : Extends c6 b2 := ((e7.trans e8).trans e9)
  have x7 : Extends c7 b2 := e8.trans e9
  have x8 : Extends c8 b2 := e9
  have hnew : bpbNew.pos = 0 := rfl
  rw [hnew] at hq1
  refine ⟨?_, ?_, ?_, ?_⟩
  · simp only [recBytesA, List.length_append, u16be_length, u32be_length]
    omega
  · rw [show recBytesA r = qnb r.domain ++ (u16be 1 ++ (u16be 1 ++ (u32be (r.ttl % 4294967296)
        ++ (u16be 4 ++ ([(r.ip >>> 24) % 256] ++ ([(r.ip >>> 16) % 256]
          ++ ([(r.ip >>> 8) % 256] ++ [r.ip % 256]))))))) from by
      simp [recBytesA, u32be]]
    rw [show (0 : Nat) = bpbNew.pos from rfl]
    refine agreesAt_pair (agreesAt_mono c1.pos hqa (fun j hj => x1.2.1 j hj) (by omega)) ?_
    rw [show bpbNew.pos + (qnb r.domain).length = c1.pos from by rw [hnew]; omega]
    refine agreesAt_pair (agreesAt_mono c2.pos ha2 (fun j hj => x2.2.1 j hj) (by simp only [u16be_length]; omega)) ?_
    rw [u16be_length, show c1.pos + 2 = c2.pos from by omega]
    refine agreesAt_pair (agreesAt_mono c3.pos ha3 (fun j hj => x3.2.1 j hj) (by simp only [u16be_length]; omega)) ?_
    rw [u16be_length, show c2.pos + 2 = c3.pos from by omega]
    refine agreesAt_pair (agreesAt_mono c4.pos ha4 (fun j hj => x4.2.1 j hj) (by simp only [u32be_length]; omega)) ?_
    rw [u32be_length, show c3.pos + 4 = c4.pos from by omega]
    refine agreesAt_pair (agreesAt_mono c5.pos ha5 (fun j hj => x5.2.1 j hj) (by simp only [u16be_length]; omega)) ?_
    rw [u16be_length, show c4.pos + 2 = c5.pos from by omega]
    refine agreesAt_pair (agreesAt_mono c6.pos ha6 (fun j hj => x6.2.1 j hj) (by simp only [List.length_cons, List.length_nil]; omega)) ?_
    rw [show c5.pos + [(r.ip >>> 24) % 256].length = c6.pos from by
      simp only [List.length_cons, List.length_nil]; omega]
    refine agreesAt_pair (agreesAt_mono c7.pos ha7 (fun j hj => x7.2.1 j hj) (by simp only [List.length_cons, List.length_nil]; omega)) ?_
    rw [show c6.pos + [(r.ip >>> 16) % 256].length = c7.pos from by
      simp only [List.length_cons, List.length_nil]; omega]
    refine agreesAt_pair (agreesAt_mono c8.pos ha8 (fun j hj => x8.2.1 j hj) (by simp only [List.length_cons, List.length_nil]; omega)) ?_
    rw [show c7.pos + [(r.ip >>> 8) % 256].length = c8.pos from by
      simp only [List.length_cons, List.length_nil]; omega]
    exact ha9
  · simp only [DEFAULT_BUFFER_SIZE] at hfit9
    omega
  · intro j hj
    have hall : Extends bpbNew b2 := (extends_qname h1).trans x1
    rw [hall.2.2 j (by omega)]
    rfl

theorem agreesAt_patch2_below {f : Nat → Nat} {p sp hi2 lo : Nat} {bs : List Nat}
    (h : agreesAt f p bs) (hb : p + bs.length ≤ sp) :
    agreesAt (setB (setB f sp hi2) (sp + 1) lo) p bs := fun i hlt => by
  rw [setB_other _ _ (by omega), setB_other _ _ (by omega), h i hlt]

theorem agreesAt_patch2_above {f : Nat → Nat} {p sp hi2 lo : Nat} {bs : List Nat}
    (h : agreesAt f p bs) (hb : sp + 2 ≤ p) :
    agreesAt (setB (setB f sp hi2) (sp + 1) lo) p bs := fun i hlt => by
  rw [setB_other _ _ (by omega), setB_other _ _ (by omega), h i hlt]

theorem agreesAt_patch2_at {f : Nat → Nat} {sp v : Nat} :
    agreesAt (setB (setB f sp (v >>> 8)) (sp + 1) v) sp (u16be v) := by
  intro i hlt
  simp only [u16be, List.length_cons, List.length_nil] at hlt
  interval_cases i
  · show setB (setB f sp (v >>> 8)) (sp + 1) v sp = _
    rw [setB_other _ _ (by omega), setB_same]
    rfl
  · rw [setB_same]
    rfl

/-- The NS record serializer emits exactly recBytesNS into a fresh
buffer; in particular the back-patched rdlength equals the encoded
length of the name-server qname. -/
theorem recNS_spec {r : Records.AuthoritativeNameServer} {b2 : BytePacketBuffer}
    (hgd : goodName r.domain) (hgn : goodName r.ns_name)
    (h : Records.AuthoritativeNameServer.serialize r bpbNew = .ok b2) :
    b2.pos = (recBytesNS r).length ∧ agreesAt b2.buf 0 (recBytesNS r)
      ∧ b2.pos ≤ 512 ∧ (∀ j, b2.pos ≤ j → b2.buf j = 0) := by
  obtain ⟨c1, h1, h⟩ := CRes.bind_eq_ok.mp h
  obtain ⟨c2, h2, h⟩ := CRes.bind_eq_ok.mp h
  obtain ⟨c3, h3, h⟩ := CRes.bind_eq_ok.mp h
  obtain ⟨c4, h4, h⟩ := CRes.bind_eq_ok.mp h
  obtain ⟨c5, h5, h⟩ := CRes.bind_eq_ok.mp h
  obtain ⟨c6, h6, h⟩ := CRes.bind_eq_ok.mp h
  obtain ⟨c7, h7, h⟩ := CRes.bind_eq_ok.mp h
  obtain ⟨c8, h8, h⟩ := CRes.bind_eq_ok.mp h
  obtain ⟨hq1, hqa, hq512⟩ := serialize_qname_spec hgd h1
  obtain ⟨hp2, ha2⟩ := agrees_u16 h2
  obtain ⟨hp3, ha3⟩ := agrees_u16 h3
  obtain ⟨hp4, ha4⟩ := agrees_u32 h4
  obtain ⟨hp5, _⟩ := agrees_u16 h5
  obtain ⟨hq6, hqa6, hq6512⟩ := serialize_qname_spec hgn h6
  obtain ⟨hs7, e7⟩ := seekB_eq_ok.mp h7
  obtain ⟨hs8, e8⟩ := serialize_u16_eq_ok.mp h8
  obtain ⟨hs9, e9⟩ := seekB_eq_ok.mp h
  have e2 := extends_u16 h2
  have e3 := extends_u16 h3
  have e4 := extends_u32 h4
  have e5 := extends_u16 h5
  have e6 := extends_qname h6
  have x2 : Extends c2 c6 := ((e3.trans e4).trans e5).trans e6
  have x1 : Extends c1 c6 := e2.trans x2
  have x3 : Extends c3 c6 := (e4.trans e5).trans e6
  have x4 : Extends c4 c6 := e5.trans e6
  have hnew : bpbNew.pos = 0 := rfl
  rw [hnew] at hq1
  subst e7
  subst e8
  subst e9
  dsimp only at *
  have hv : c6.pos - (c4.pos + 2) = (qnb r.ns_name).length := by omega
  refine ⟨?_, ?_, ?_, ?_⟩
  · simp only [recBytesNS, List.length_append, u16be_length, u32be_length]
    omega
  · rw [show recBytesNS r = qnb r.domain ++ (u16be 2 ++ (u16be 1 ++ (u32be (r.ttl % 4294967296)
        ++ (u16be ((qnb r.ns_name).length % 65536) ++ qnb r.ns_name)))) from by
      simp [recBytesNS]]
    rw [show (0 : Nat) = bpbNew.pos from rfl]
    refine agreesAt_pair (agreesAt_patch2_below
      (agreesAt_mono c1.pos hqa (fun j hj => x1.2.1 j hj) (by omega)) (by omega)) ?_
    rw [show bpbNew.pos + (qnb r.domain).length = c1.pos from by rw [hnew]; omega]
    refine agreesAt_pair (agreesAt_patch2_below
      (agreesAt_mono c2.pos ha2 (fun j hj => x2.2.1 j hj) (by simp only [u16be_length]; omega))
      (by simp only [u16be_length]; omega)) ?_
    rw [u16be_length, show c1.pos + 2 = c2.pos from by omega]
    refine agreesAt_pair (agreesAt_patch2_below
      (agreesAt_mono c3.pos ha3 (fun j hj => x3.2.1 j hj) (by simp only [u16be_length]; omega))
      (by simp only [u16be_length]; omega)) ?_
    rw [u16be_length, show c2.pos + 2 = c3.pos from by omega]
    refine agreesAt_pair (agreesAt_patch2_below
      (agreesAt_mono c4.pos ha4 (fun j hj => x4.2.1 j hj) (by simp only [u32be_length]; omega))
      (by simp only [u32be_length]; omega)) ?_
    rw [u32be_length, show c3.pos + 4 = c4.pos from by omega]
    refine agreesAt_pair ?_ ?_
    · rw [show (qnb r.ns_name).length % 65536 = (c6.pos - (c4.pos + 2)) % 65536 from by rw [hv]]
      exact agreesAt_patch2_at
    · rw [u16be_length, show c4.pos + 2 = c5.pos from by omega]
      exact agreesAt_patch2_above (agreesAt_mono c6.pos hqa6 (fun j hj => Eq.refl _) (by omega))
        (by omega)
  · omega
  · intro j hj
    have hall : Extends bpbNew c6 := (extends_qname h1).trans x1
    show setB (setB c6.buf c4.pos _) (c4.pos + 1) _ j = 0
    rw [setB_other _ _ (by omega), setB_other _ _ (by omega), hall.2.2 j (by omega)]
    rfl

/-- The CNAME record serializer emits exactly recBytesCN into a fresh
buffer; in particular the back-patched rdlength equals the encoded
length of the alias qname. -/
theorem recCN_spec {r : Records.CName} {b2 : BytePacketBuffer}
    (hgd : goodName r.domain) (hgn : goodName r.aliasName)
    (h : Records.CName.serialize r bpbNew = .ok b2) :
    b2.pos = (recBytesCN r).length ∧ agreesAt b2.buf 0 (recBytesCN r)
      ∧ b2.pos ≤ 512 ∧ (∀ j, b2.pos ≤ j → b2.buf j = 0) := by
  obtain ⟨c1, h1, h⟩ := CRes.bind_eq_ok.mp h
  obtain ⟨c2, h2, h⟩ := CRes.bind_eq_ok.mp h
  obtain ⟨c3, h3, h⟩ := CRes.bind_eq_ok.mp h
  obtain ⟨c4, h4, h⟩ := CRes.bind_eq_ok.mp h
  obtain ⟨c5, h5, h⟩ := CRes.bind_eq_ok.mp h
  obtain ⟨c6, h6, h⟩ := CRes.bind_eq_ok.mp h
  obtain ⟨c7, h7, h⟩ := CRes.bind_eq_ok.mp h
  obtain ⟨c8, h8, h⟩ := CRes.bind_eq_ok.mp h
  obtain ⟨hq1, hqa, hq512⟩ := serialize_qname_spec hgd h1
  obtain ⟨hp2, ha2⟩ := agrees_u16 h2
  obtain ⟨hp3, ha3⟩ := agrees_u16 h3
  obtain ⟨hp4, ha4⟩ := agrees_u32 h4
  obtain ⟨hp5, _⟩ := agrees_u16 h5
  obtain ⟨hq6, hqa6, hq6512⟩ := serialize_qname_spec hgn h6
  obtain ⟨hs7, e7⟩ := seekB_eq_ok.mp h7
  obtain ⟨hs8, e8⟩ := serialize_u16_eq_ok.mp h8
  obtain ⟨hs9, e9⟩ := seekB_eq_ok.mp h
  have e2 := extends_u16 h2
  have e3 := extends_u16 h3
  have e4 := extends_u32 h4
  have e5 := extends_u16 h5
  have e6 := extends_qname h6
  have x2 : Extends c2 c6 := ((e3.trans e4).trans e5).trans e6
  have x1 : Extends c1 c6 := e2.trans x2
  have x3 : Extends c3 c6 := (e4.trans e5).trans e6
  have x4 : Extends c4 c6 := e5.trans e6
  have hnew : bpbNew.pos = 0 := rfl
  rw [hnew] at hq1
  subst e7
  subst e8
  subst e9
  dsimp only at *
  have hv : c6.pos - (c4.pos + 2) = (qnb r.aliasName).length := by omega
  refine ⟨?_, ?_, ?_, ?_⟩
  · simp only [recBytesCN, List.length_append, u16be_length, u32be_length]
    omega
  · rw [show recBytesCN r = qnb r.domain ++ (u16be 5 ++ (u16be 1 ++ (u32be (r.ttl % 4294967296)
        ++ (u16be ((qnb r.aliasName).length % 65536) ++ qnb r.aliasName)))) from by
      simp [recBytesCN]]
    rw [show (0 : Nat) = bpbNew.pos from rfl]
    refine agreesAt_pair (agreesAt_patch2_below
      (agreesAt_mono c1.pos hqa (fun j hj => x1.2.1 j hj) (by omega)) (by omega)) ?_
    rw [show bpbNew.pos + (qnb r.domain).length = c1.pos from by rw [hnew]; omega]
    refine agreesAt_pair (agreesAt_patch2_below
      (agreesAt_mono c2.pos ha2 (fun j hj => x2.2.1 j hj) (by simp only [u16be_length]; omega))
      (by simp only [u16be_length]; omega)) ?_
    rw [u16be_length, show c1.pos + 2 = c2.pos from by omega]
    refine agreesAt_pair (agreesAt_patch2_below
      (agreesAt_mono c3.pos ha3 (fun j hj => x3.2.1 j hj) (by simp only [u16be_length]; omega))
      (by simp only [u16be_length]; omega)) ?_
    rw [u16be_length, show c2.pos + 2 = c3.pos from by omega]
    refine agreesAt_pair (agreesAt_patch2_below
      (agreesAt_mono c4.pos ha4 (fun j hj => x4.2.1 j hj) (by simp only [u32be_length]; omega))
      (by simp only [u32be_length]; omega)) ?_
    rw [u32be_length, show c3.pos + 4 = c4.pos from by omega]
    refine agreesAt_pair ?_ ?_
    · rw [show (qnb r.aliasName).length % 65536 = (c6.pos - (c4.pos + 2)) % 65536 from by rw [hv]]
      exact agreesAt_patch2_at
    · rw [u16be_length, show c4.pos + 2 = c5.pos from by omega]
      exact agreesAt_patch2_above (agreesAt_mono c6.pos hqa6 (fun j hj => Eq.refl _) (by omega))
        (by omega)
  · omega
  · intro j hj
    have hall : Extends bpbNew c6 := (extends_qname h1).trans x1
    show setB (setB c6.buf c4.pos _) (c4.pos + 1) _ j = 0
    rw [setB_other _ _ (by omega), setB_other _ _ (by omega), hall.2.2 j (by omega)]
    rfl


/-- The MX record serializer emits exactly recBytesMX into a fresh
buffer; the back-patched rdlength is the rdata length plus 4 because of
the missing parentheses in the payload computation. -/
theorem recMX_spec {r : Records.MailExchange} {b2 : BytePacketBuffer}
    (hgd : goodName r.domain) (hgn : goodName r.exchange)
    (h : Records.MailExchange.serialize r bpbNew = .ok b2) :
    b2.pos = (recBytesMX r).length ∧ agreesAt b2.buf 0 (recBytesMX r)
      ∧ b2.pos ≤ 512 ∧ (∀ j, b2.pos ≤ j → b2.buf j = 0) := by
  obtain ⟨c1, h1, h⟩ := CRes.bind_eq_ok.mp h
  obtain ⟨c2, h2, h⟩ := CRes.bind_eq_ok.mp h
  obtain ⟨c3, h3, h⟩ := CRes.bind_eq_ok.mp h
  obtain ⟨c4, h4, h⟩ := CRes.bind_eq_ok.mp h
  obtain ⟨c5, h5, h⟩ := CRes.bind_eq_ok.mp h
  obtain ⟨c6, h6, h⟩ := CRes.bind_eq_ok.mp h
  obtain ⟨c7, h7, h⟩ := CRes.bind_eq_ok.mp h
  obtain ⟨c8, h8, h⟩ := CRes.bind_eq_ok.mp h
  obtain ⟨c9, h9, h⟩ := CRes.bind_eq_ok.mp h
  obtain ⟨hq1, hqa, hq512⟩ := serialize_qname_spec hgd h1
  obtain ⟨hp2, ha2⟩ := agrees_u16 h2
  obtain ⟨hp3, ha3⟩ := agrees_u16 h3
  obtain ⟨hp4, ha4⟩ := agrees_u32 h4
  obtain ⟨hp5, _⟩ := agrees_u16 h5
  obtain ⟨hp6, ha6⟩ := agrees_u16 h6
  obtain ⟨hq7, hqa7, hq7512⟩ := serialize_qname_spec hgn h7
  obtain ⟨hs8, e8⟩ := seekB_eq_ok.mp h8
  obtain ⟨hs9, e9⟩ := serialize_u16_eq_ok.mp h9
  obtain ⟨hsa, ea⟩ := seekB_eq_ok.mp h
  have x2 : Extends c2 c7 :=
    (((extends_u16 h3).trans (extends_u32 h4)).trans (extends_u16 h5)).trans
      ((extends_u16 h6).trans (extends_qname h7))
  have x1 : Extends c1 c7 := (extends_u16 h2).trans x2
  have x3 : Extends c3 c7 :=
    ((extends_u32 h4).trans (extends_u16 h5)).trans ((extends_u16 h6).trans (extends_qname h7))
  have x4 : Extends c4 c7 :=
    (extends_u16 h5).trans ((extends_u16 h6).trans (extends_qname h7))
  have x6 : Extends c6 c7 := extends_qname h7
  have hnew : bpbNew.pos = 0 := rfl
  rw [hnew] at hq1
  subst e8
  subst e9
  subst ea
  dsimp only at *
  have hv : c7.pos - c4.pos + 2 = (qnb r.exchange).length + 6 := by omega
  refine ⟨?_, ?_, ?_, ?_⟩
  · simp only [recBytesMX, List.length_append, u16be_length, u32be_length]
    omega
  · rw [show recBytesMX r = qnb r.domain ++ (u16be 15 ++ (u16be 1 ++ (u32be (r.ttl % 4294967296)
        ++ (u16be (((qnb r.exchange).length + 6) % 65536)
          ++ (u16be r.preference ++ qnb r.exchange))))) from by
      simp [recBytesMX]]
    rw [show (0 : Nat) = bpbNew.pos from rfl]
    refine agreesAt_pair (agreesAt_patch2_below
      (agreesAt_mono c1.pos hqa (fun j hj => x1.2.1 j hj) (by omega)) (by omega)) ?_
    rw [show bpbNew.pos + (qnb r.domain).length = c1.pos from by rw [hnew]; omega]
    refine agreesAt_pair (agreesAt_patch2_below
      (agreesAt_mono c2.pos ha2 (fun j hj => x2.2.1 j hj) (by simp only [u16be_length]; omega))
      (by simp only [u16be_length]; omega)) ?_
    rw [u16be_length, show c1.pos + 2 = c2.pos from by omega]
    refine agreesAt_pair (agreesAt_patch2_below
      (agreesAt_mono c3.pos ha3 (fun j hj => x3.2.1 j hj) (by simp only [u16be_length]; omega))
      (by simp only [u16be_length]; omega)) ?_
    rw [u16be_length, show c2.pos + 2 = c3.pos from by omega]
    refine agreesAt_pair (agreesAt_patch2_below
      (agreesAt_mono c4.pos ha4 (fun j hj => x4.2.1 j hj) (by simp only [u32be_length]; omega))
      (by simp only [u32be_length]; omega)) ?_
    rw [u32be_length, show c3.pos + 4 = c4.pos from by omega]
    refine agreesAt_pair ?_ ?_
    · rw [show ((qnb r.exchange).length + 6) % 65536 = (c7.pos - c4.pos + 2) % 65536 from by
        rw [hv]]
      exact agreesAt_patch2_at
    · rw [u16be_length, show c4.pos + 2 = c5.pos from by omega]
      refine agreesAt_pair (agreesAt_patch2_above
        (agreesAt_mono c6.pos ha6 (fun j hj => x6.2.1 j hj) (by simp only [u16be_length]; omega))
        (by omega)) ?_
      rw [u16be_length, show c5.pos + 2 = c6.pos from by omega]
      exact agreesAt_patch2_above (agreesAt_mono c7.pos hqa7 (fun j hj => Eq.refl _) (by omega))
        (by omega)
  · omega
  · intro j hj
    have hall : Extends bpbNew c7 := (extends_qname h1).trans x1
    show setB (setB c7.buf c4.pos _) (c4.pos + 1) _ j = 0
    rw [setB_other _ _ (by omega), setB_other _ _ (by omega), hall.2.2 j (by omega)]
    rfl

/-! Decode-side lemmas. -/

theorem beVal2 {x y : Nat} (hy : y < 256) : (x <<< 8) ||| y = x * 256 + y := by
  have h := (Nat.mul_add_lt_is_or (show y < 2 ^ 8 by omega) x).symm
  rw [Nat.shiftLeft_eq, Nat.mul_comm x (2 ^ 8), h]

theorem beVal4 {a b c d : Nat} (hb : b < 256) (hc : c < 256) (hd : d < 256) :
    (a <<< 24) ||| (b <<< 16) ||| (c <<< 8) ||| d
      = ((a * 256 + b) * 256 + c) * 256 + d := by
  have hy1 : b <<< 16 < 2 ^ 24 := by
    rw [Nat.shiftLeft_eq]
    have : b * 2 ^ 16 < 256 * 2 ^ 16 := by
      exact Nat.mul_lt_mul_of_lt_of_le hb (Nat.le_refl _) (by norm_num)
    calc b * 2 ^ 16 < 256 * 2 ^ 16 := this
      _ = 2 ^ 24 := by norm_num
  have h1 : (a <<< 24) ||| (b <<< 16) = 2 ^ 16 * (2 ^ 8 * a + b) := by
    rw [Nat.shiftLeft_eq a 24, Nat.mul_comm a (2 ^ 24),
      ← Nat.mul_add_lt_is_or hy1 a, Nat.shiftLeft_eq b 16]
    ring
  have hy2 : c <<< 8 < 2 ^ 16 := by
    rw [Nat.shiftLeft_eq]
    have : c * 2 ^ 8 < 256 * 2 ^ 8 := by
      exact Nat.mul_lt_mul_of_lt_of_le hc (Nat.le_refl _) (by norm_num)
    calc c * 2 ^ 8 < 256 * 2 ^ 8 := this
      _ = 2 ^ 16 := by norm_num
  have h2 : (a <<< 24) ||| (b <<< 16) ||| (c <<< 8)
      = 2 ^ 8 * (2 ^ 8 * (2 ^ 8 * a + b) + c) := by
    rw [h1, ← Nat.mul_add_lt_is_or hy2 (2 ^ 8 * a + b), Nat.shiftLeft_eq c 8]
    ring
  rw [h2, ← Nat.mul_add_lt_is_or (show d < 2 ^ 8 by omega) (2 ^ 8 * (2 ^ 8 * a + b) + c)]
  ring

theorem u16be_recomb {v : Nat} (hv : v < 65536) : ((v >>> 8) % 256) * 256 + v % 256 = v := by
  rw [Nat.shiftRight_eq_div_pow]
  have : (2 : Nat) ^ 8 = 256 := by norm_num
  rw [this]
  omega

theorem u32be_recomb {v : Nat} (hv : v < 4294967296) :
    (((v >>> 24) % 256 * 256 + (v >>> 16) % 256) * 256 + (v >>> 8) % 256) * 256 + v % 256
      = v := by
  rw [Nat.shiftRight_eq_div_pow, Nat.shiftRight_eq_div_pow, Nat.shiftRight_eq_div_pow]
  have h24 : (2 : Nat) ^ 24 = 16777216 := by norm_num
  have h16 : (2 : Nat) ^ 16 = 65536 := by norm_num
  have h8 : (2 : Nat) ^ 8 = 256 := by norm_num
  rw [h24, h16, h8]
  omega

theorem read_u8_at {g : Nat → Nat} {p : Nat} (hp : p < 512) :
    read_u8 ⟨g, p⟩ = .ok (g p, ⟨g, p + 1⟩) := by
  rw [read_u8, if_pos (by simpa [DEFAULT_BUFFER_SIZE] using hp)]

theorem read_u16_at {g : Nat → Nat} {p : Nat} (hp : p + 2 ≤ 512) :
    read_u16 ⟨g, p⟩ = .ok ((g p <<< 8) ||| g (p + 1), ⟨g, p + 2⟩) := by
  rw [read_u16, read_u8_at (by omega)]
  show CRes.map _ (read_u8 ⟨g, p + 1⟩) = _
  rw [read_u8_at (by omega)]
  rfl

theorem read_u32_at {g : Nat → Nat} {p : Nat} (hp : p + 4 ≤ 512) :
    read_u32 ⟨g, p⟩
      = .ok ((g p <<< 24) ||| (g (p + 1) <<< 16) ||| (g (p + 2) <<< 8) ||| g (p + 3),
          ⟨g, p + 4⟩) := by
  rw [read_u32, read_u8_at (by omega)]
  show CRes.bind (read_u8 ⟨g, p + 1⟩) _ = _
  rw [read_u8_at (by omega)]
  show CRes.bind (read_u8 ⟨g, p + 1 + 1⟩) _ = _
  rw [read_u8_at (by omega)]
  show CRes.map _ (read_u8 ⟨g, p + 1 + 1 + 1⟩) = _
  rw [read_u8_at (by omega)]
  show CRes.ok _ = _
  rw [show p + 1 + 1 + 1 = p + 3 from by omega, show p + 3 + 1 = p + 4 from by omega,
    show p + 1 + 1 = p + 2 from by omega]

theorem bytesAt_of_agrees {g : Nat → Nat} {q : Nat} {bs : List Nat} (h : agreesAt g q bs) :
    bytesAt g q bs.length = bs := by
  apply List.ext_getElem
  · simp [bytesAt]
  · intro i h1 h2
    have h3 : i < bs.length := h2
    have := h i h3
    rw [List.getD_eq_getElem?_getD, List.getElem?_eq_getElem h3] at this
    simp only [bytesAt, List.getElem_map, List.getElem_range]
    simpa using this

theorem qnameBytes_cons (l : List Char) (rest : List (List Char)) :
    qnameBytes (l :: rest)
      = ((labelBytes l).length :: labelBytes l) ++ qnameBytes rest := by
  simp [qnameBytes, List.flatten]

theorem qnameBytes_len_lower :
    ∀ (ls : List (List Char)), (∀ l ∈ ls, goodLabel l) →
      2 * ls.length + 1 ≤ (qnameBytes ls).length := by
  intro ls
  induction ls with
  | nil => intro _; simp [qnameBytes]
  | cons l rest ih =>
    intro h
    have hl := h l (List.mem_cons_self l rest)
    have hlen : 1 ≤ (labelBytes l).length := by
      rw [labelBytes_length_ascii hl.2.2]
      cases hl0 : l with
      | nil => exact absurd hl0 hl.1
      | cons c cs => simp
    have := ih fun x hx => h x (List.mem_cons_of_mem l hx)
    rw [qnameBytes_cons]
    simp only [List.length_append, List.length_cons]
    omega

/-- The qname reader consumes exactly the encoding of a good label list
and accumulates the labels joined after the pending delimiter. -/
theorem readQnameAux_decodes :
    ∀ (ls : List (List Char)) (g : Nat → Nat) (p cur fuel : Nat) (out delim : List Char),
      (∀ l ∈ ls, goodLabel l) →
      agreesAt g p (qnameBytes ls) →
      p + (qnameBytes ls).length ≤ 512 →
      ls.length < fuel →
      readQnameAux g fuel p false cur out delim
        = .ok (appendLabels out delim ls, p + (qnameBytes ls).length) := by
  intro ls
  induction ls with
  | nil =>
    intro g p cur fuel out delim _ hagree hfit hfuel
    cases fuel with
    | zero => omega
    | succ f =>
      have hlen : (qnameBytes ([] : List (List Char))).length = 1 := rfl
      have h0 : g p = 0 := by
        have := hagree 0 (by rw [hlen]; omega)
        simpa using this
      rw [hlen] at hfit
      show readQnameAux g (f + 1) p false cur out delim = _
      rw [readQnameAux]
      rw [if_neg (by simp only [DEFAULT_BUFFER_SIZE]; omega)]
      dsimp only
      rw [h0, if_pos rfl, if_neg (by simp), if_neg (by simp only [DEFAULT_BUFFER_SIZE]; omega)]
      rfl
  | cons l rest ih =>
    intro g p cur fuel out delim hgood hagree hfit hfuel
    cases fuel with
    | zero => simp at hfuel
    | succ f =>
      have hgl := hgood l (List.mem_cons_self l rest)
      have hgrest : ∀ x ∈ rest, goodLabel x := fun x hx => hgood x (List.mem_cons_of_mem l hx)
      have hlenl : (labelBytes l).length = l.length := labelBytes_length_ascii hgl.2.2
      have hlen63 : (labelBytes l).length ≤ 63 := by rw [hlenl]; exact hgl.2.1
      have hlen1 : 1 ≤ (labelBytes l).length := by
        rw [hlenl]
        cases hl0 : l with
        | nil => exact absurd hl0 hgl.1
        | cons c cs => simp
      rw [qnameBytes_cons] at hagree hfit
      rw [agreesAt_append] at hagree
      obtain ⟨hachunk, harest⟩ := hagree
      have hgp : g p = (labelBytes l).length := by
        have := hachunk 0 (by simp)
        simpa using this
      have hlab : agreesAt g (p + 1) (labelBytes l) := by
        intro i hi
        have := hachunk (i + 1) (by simp only [List.length_cons]; omega)
        rw [show p + (i + 1) = p + 1 + i from by omega] at this
        simpa using this
      simp only [List.length_append, List.length_cons] at hfit
      show readQnameAux g (f + 1) p false cur out delim = _
      rw [readQnameAux]
      rw [if_neg (by simp only [DEFAULT_BUFFER_SIZE]; omega)]
      dsimp only
      rw [hgp]
      rw [if_neg (by omega), if_neg (by rw [and192_of_le63 hlen63]; omega)]
      rw [if_neg (by simp only [DEFAULT_BUFFER_SIZE]; omega)]
      have hbytes : bytesAt g (p + 1) (labelBytes l).length = labelBytes l :=
        bytesAt_of_agrees hlab
      rw [hbytes, lossyLower_labelBytes hgl.2.2]
      have hrest2 : agreesAt g (p + 1 + (labelBytes l).length) (qnameBytes rest) := by
        intro i hi
        have := harest i hi
        rw [show p + ((labelBytes l).length :: labelBytes l).length + i
            = p + 1 + (labelBytes l).length + i from by simp only [List.length_cons]; omega]
          at this
        exact this
      rw [ih g (p + 1 + (labelBytes l).length) cur f (out ++ delim ++ l) [Char.ofNat 46]
        hgrest hrest2 (by omega) (by
          have hfl : (l :: rest).length = rest.length + 1 := List.length_cons l rest
          omega)]
      show CRes.ok (appendLabels (out ++ delim ++ l) [dotChar] rest, _) = _
      rw [show appendLabels out delim (l :: rest)
          = appendLabels (out ++ delim ++ l) [dotChar] rest from rfl]
      congr 1
      rw [Prod.mk.injEq]
      refine ⟨rfl, by rw [qnameBytes_cons]; simp only [List.length_append, List.length_cons]; omega⟩

/-- read_qname on a buffer holding the encoding of a good name returns
the name and leaves the cursor one past the terminating zero. -/
theorem read_qname_decodes {s : String} {g : Nat → Nat} {p fuel : Nat}
    (hgood : goodName s)
    (hagree : agreesAt g p (qnb s))
    (hfit : p + (qnb s).length ≤ 512)
    (hfuel : (splitDot s).length < fuel) :
    read_qname fuel ⟨g, p⟩ = .ok (s, ⟨g, p + (qnb s).length⟩) := by
  show (readQnameAux g fuel p false p [] []).map _ = _
  rw [readQnameAux_decodes (splitDot s) g p p fuel [] [] hgood hagree hfit hfuel]
  dsimp only [CRes.map]
  rw [appendLabels_splitDot s]
  rfl

theorem agrees_u16_bytes {g : Nat → Nat} {p v : Nat} (h : agreesAt g p (u16be v)) :
    g p = (v >>> 8) % 256 ∧ g (p + 1) = v % 256 :=
  ⟨by simpa using h 0 (by norm_num), by simpa using h 1 (by norm_num)⟩

theorem agrees_u32_bytes {g : Nat → Nat} {p v : Nat} (h : agreesAt g p (u32be v)) :
    g p = (v >>> 24) % 256 ∧ g (p + 1) = (v >>> 16) % 256
      ∧ g (p + 2) = (v >>> 8) % 256 ∧ g (p + 3) = v % 256 :=
  ⟨by simpa using h 0 (by norm_num), by simpa using h 1 (by norm_num),
    by simpa using h 2 (by norm_num), by simpa using h 3 (by norm_num)⟩

theorem read_u16_val {g : Nat → Nat} {p v : Nat} (hp : p + 2 ≤ 512) (hv : v < 65536)
    (h0 : g p = (v >>> 8) % 256) (h1 : g (p + 1) = v % 256) :
    read_u16 ⟨g, p⟩ = .ok (v, ⟨g, p + 2⟩) := by
  rw [read_u16_at hp, h0, h1, beVal2 (Nat.mod_lt _ (by omega)), u16be_recomb hv]

theorem read_u32_val {g : Nat → Nat} {p v : Nat} (hp : p + 4 ≤ 512) (hv : v < 4294967296)
    (h0 : g p = (v >>> 24) % 256) (h1 : g (p + 1) = (v >>> 16) % 256)
    (h2 : g (p + 2) = (v >>> 8) % 256) (h3 : g (p + 3) = v % 256) :
    read_u32 ⟨g, p⟩ = .ok (v, ⟨g, p + 4⟩) := by
  rw [read_u32_at hp, h0, h1, h2, h3,
    beVal4 (Nat.mod_lt _ (by omega)) (Nat.mod_lt _ (by omega)) (Nat.mod_lt _ (by omega)),
    u32be_recomb hv]

theorem u16be_lt (v : Nat) : ∀ x ∈ u16be v, x < 256 := by
  intro x hx
  simp only [u16be, List.mem_cons, List.not_mem_nil, or_false] at hx
  rcases hx with h | h <;> (subst h; exact Nat.mod_lt _ (by omega))

theorem u32be_lt (v : Nat) : ∀ x ∈ u32be v, x < 256 := by
  intro x hx
  simp only [u32be, List.mem_cons, List.not_mem_nil, or_false] at hx
  rcases hx with h | h | h | h <;> (subst h; exact Nat.mod_lt _ (by omega))

theorem qnameBytes_lt :
    ∀ (ls : List (List Char)), (∀ l ∈ ls, goodLabel l) → ∀ v ∈ qnameBytes ls, v < 256 := by
  intro ls
  induction ls with
  | nil =>
    intro _ v hv
    simp only [qnameBytes, List.map_nil, List.flatten_nil, List.nil_append,
      List.mem_cons, List.not_mem_nil, or_false] at hv
    omega
  | cons l rest ih =>
    intro h v hv
    have hgl := h l (List.mem_cons_self l rest)
    rw [qnameBytes_cons] at hv
    rcases List.mem_append.mp hv with hin | hin
    · rcases List.mem_cons.mp hin with he | he
      · have : (labelBytes l).length ≤ 63 := by
          rw [labelBytes_length_ascii hgl.2.2]; exact hgl.2.1
        omega
      · have := labelBytes_lt hgl.2.2 v he
        omega
    · exact ih (fun x hx => h x (List.mem_cons_of_mem l hx)) v hin

theorem qnb_lt {s : String} (h : goodName s) : ∀ v ∈ qnb s, v < 256 :=
  qnameBytes_lt (splitDot s) h

theorem bytesAt_length (f : Nat → Nat) (p n : Nat) : (bytesAt f p n).length = n := by
  simp [bytesAt]

theorem bytesAt_getD {f : Nat → Nat} {p n i : Nat} (h : i < n) :
    (bytesAt f p n).getD i 0 = f (p + i) := by
  rw [List.getD_eq_getElem?_getD]
  simp [bytesAt, List.getElem?_map, List.getElem?_range, h]

/-- Decoding happens on the buffer rebuilt from the emitted bytes; the
rebuilt byte store agrees with the same byte list. -/
theorem decode_buffer_agrees {b2 : BytePacketBuffer} {bs : List Nat}
    (hpos : b2.pos = bs.length) (hagree : agreesAt b2.buf 0 bs) (hlt : ∀ v ∈ bs, v < 256)
    (h512 : b2.pos ≤ 512) :
    agreesAt (from_raw_data (bpbBytes b2)).buf 0 bs := by
  intro i hi
  show (if 0 + i < min DEFAULT_BUFFER_SIZE (bpbBytes b2).length
      then (bpbBytes b2).getD (0 + i) 0 % 256 else 0) = _
  rw [show bpbBytes b2 = bytesAt b2.buf 0 b2.pos from rfl, bytesAt_length,
    if_pos (by simp only [DEFAULT_BUFFER_SIZE]; omega), bytesAt_getD (by omega)]
  rw [Nat.zero_add, Nat.zero_add]
  have hv := hagree i hi
  rw [Nat.zero_add] at hv
  rw [hv]
  apply Nat.mod_eq_of_lt
  apply hlt
  rw [List.getD_eq_getElem?_getD, List.getElem?_eq_getElem hi]
  exact List.getElem_mem hi

theorem recBytesA_lt {r : Records.A} (hgd : goodName r.domain) :
    ∀ v ∈ recBytesA r, v < 256 := by
  intro v hv
  simp only [recBytesA, List.mem_append] at hv
  rcases hv with ((((hq | h1) | h2) | h3) | h4) | h5
  · exact qnb_lt hgd v hq
  · exact u16be_lt 1 v h1
  · exact u16be_lt 1 v h2
  · exact u32be_lt _ v h3
  · exact u16be_lt 4 v h4
  · exact u32be_lt _ v h5

theorem recBytesA_length (r : Records.A) :
    (recBytesA r).length = (qnb r.domain).length + 14 := by
  simp only [recBytesA, List.length_append, u16be_length, u32be_length]

theorem fuel600 {s : String} (hgood : goodName s) (hle : (qnb s).length ≤ 512) :
    (splitDot s).length < 600 := by
  have := qnameBytes_len_lower (splitDot s) hgood
  rw [show qnameBytes (splitDot s) = qnb s from rfl] at this
  omega

/-- Decoding the emitted bytes of a good A record reconstructs it. -/
theorem decodeA {r : Records.A} {g : Nat → Nat}
    (hgd : goodName r.domain) (httl : r.ttl < 4294967296) (hip : r.ip < 4294967296)
    (hagree : agreesAt g 0 (recBytesA r)) (hfit : (recBytesA r).length ≤ 512) :
    Record.from_buffer 600 ⟨g, 0⟩
      = .ok (.a ⟨r.domain, 1, r.ttl, r.ip⟩, ⟨g, (recBytesA r).length⟩) := by
  have hlen := recBytesA_length r
  rw [show recBytesA r = qnb r.domain ++ (u16be 1 ++ (u16be 1 ++ (u32be (r.ttl % 4294967296)
      ++ (u16be 4 ++ u32be r.ip)))) from by simp [recBytesA]] at hagree
  rw [Nat.mod_eq_of_lt httl] at hagree
  obtain ⟨hA0, hrest⟩ := agreesAt_append.mp hagree
  obtain ⟨hA1, hrest⟩ := agreesAt_append.mp hrest
  obtain ⟨hA2, hrest⟩ := agreesAt_append.mp hrest
  obtain ⟨hA3, hrest⟩ := agreesAt_append.mp hrest
  obtain ⟨hA4, hA5⟩ := agreesAt_append.mp hrest
  simp only [u16be_length, u32be_length] at hA1 hA2 hA3 hA4 hA5
  obtain ⟨hx1, hy1⟩ := agrees_u16_bytes hA1
  obtain ⟨hx2, hy2⟩ := agrees_u16_bytes hA2
  obtain ⟨ht0, ht1, ht2, ht3⟩ := agrees_u32_bytes hA3
  obtain ⟨hi0, hi1, hi2, hi3⟩ := agrees_u32_bytes hA5
  rw [Record.from_buffer]
  rw [read_qname_decodes hgd hA0 (by omega) (fuel600 hgd (by omega))]
  dsimp only [CRes.bind]
  rw [read_u16_val (by omega) (by norm_num) hx1 hy1]
  dsimp only [CRes.bind]
  rw [read_u16_val (by omega) (by norm_num) hx2 hy2]
  dsimp only [CRes.bind]
  rw [read_u32_val (by omega) httl ht0 ht1 ht2 ht3]
  dsimp only [CRes.bind]
  rw [read_u16_at (by omega)]
  dsimp only [CRes.bind]
  rw [show QueryType.from_u16 1 = QueryType.a from rfl]
  rw [read_u32_val (by omega) hip hi0 hi1 hi2 hi3]
  dsimp only [CRes.map]
  rw [show 0 + (qnb r.domain).length + 2 + 2 + 4 + 2 + 4 = (recBytesA r).length from by omega]

theorem recBytesNS_length (r : Records.AuthoritativeNameServer) :
    (recBytesNS r).length = (qnb r.domain).length + (qnb r.ns_name).length + 10 := by
  simp only [recBytesNS, List.length_append, u16be_length, u32be_length]
  omega

theorem recBytesCN_length (r : Records.CName) :
    (recBytesCN r).length = (qnb r.domain).length + (qnb r.aliasName).length + 10 := by
  simp only [recBytesCN, List.length_append, u16be_length, u32be_length]
  omega

theorem recBytesMX_length (r : Records.MailExchange) :
    (recBytesMX r).length = (qnb r.domain).length + (qnb r.exchange).length + 12 := by
  simp only [recBytesMX, List.length_append, u16be_length, u32be_length]
  omega

/-- Decoding the emitted bytes of a good NS record reconstructs it. -/
theorem decodeNS {r : Records.AuthoritativeNameServer} {g : Nat → Nat}
    (hgd : goodName r.domain) (hns : goodName r.ns_name) (httl : r.ttl < 4294967296)
    (hagree : agreesAt g 0 (recBytesNS r)) (hfit : (recBytesNS r).length ≤ 512) :
    Record.from_buffer 600 ⟨g, 0⟩
      = .ok (.authoritativeNameServer ⟨r.domain, 1, r.ttl, r.ns_name⟩,
             ⟨g, (recBytesNS r).length⟩) := by
  have hlen := recBytesNS_length r
  rw [show recBytesNS r = qnb r.domain ++ (u16be 2 ++ (u16be 1 ++ (u32be (r.ttl % 4294967296)
      ++ (u16be ((qnb r.ns_name).length % 65536) ++ qnb r.ns_name))))
      from by simp [recBytesNS]] at hagree
  rw [Nat.mod_eq_of_lt httl] at hagree
  obtain ⟨hA0, hrest⟩ := agreesAt_append.mp hagree
  obtain ⟨hA1, hrest⟩ := agreesAt_append.mp hrest
  obtain ⟨hA2, hrest⟩ := agreesAt_append.mp hrest
  obtain ⟨hA3, hrest⟩ := agreesAt_append.mp hrest
  obtain ⟨hA4, hA5⟩ := agreesAt_append.mp hrest
  simp only [u16be_length, u32be_length] at hA1 hA2 hA3 hA4 hA5
  obtain ⟨hx1, hy1⟩ := agrees_u16_bytes hA1
  obtain ⟨hx2, hy2⟩ := agrees_u16_bytes hA2
  obtain ⟨ht0, ht1, ht2, ht3⟩ := agrees_u32_bytes hA3
  rw [Record.from_buffer]
  rw [read_qname_decodes hgd hA0 (by omega) (fuel600 hgd (by omega))]
  dsimp only [CRes.bind]
  rw [read_u16_val (by omega) (by norm_num) hx1 hy1]
  dsimp only [CRes.bind]
  rw [read_u16_val (by omega) (by norm_num) hx2 hy2]
  dsimp only [CRes.bind]
  rw [read_u32_val (by omega) httl ht0 ht1 ht2 ht3]
  dsimp only [CRes.bind]
  rw [read_u16_at (by omega)]
  dsimp only [CRes.bind]
  rw [show QueryType.from_u16 2 = QueryType.authoritativeNameServer from rfl]
  rw [read_qname_decodes hns hA5 (by omega) (fuel600 hns (by omega))]
  dsimp only [CRes.map]
  rw [show 0 + (qnb r.domain).length + 2 + 2 + 4 + 2 + (qnb r.ns_name).length
      = (recBytesNS r).length from by omega]

/-- Decoding the emitted bytes of a good CNAME record reconstructs it. -/
theorem decodeCN {r : Records.CName} {g : Nat → Nat}
    (hgd : goodName r.domain) (hal : goodName r.aliasName) (httl : r.ttl < 4294967296)
    (hagree : agreesAt g 0 (recBytesCN r)) (hfit : (recBytesCN r).length ≤ 512) :
    Record.from_buffer 600 ⟨g, 0⟩
      = .ok (.canonicalName ⟨r.domain, 1, r.ttl, r.aliasName⟩,
             ⟨g, (recBytesCN r).length⟩) := by
  have hlen := recBytesCN_length r
  rw [show recBytesCN r = qnb r.domain ++ (u16be 5 ++ (u16be 1 ++ (u32be (r.ttl % 4294967296)
      ++ (u16be ((qnb r.aliasName).length % 65536) ++ qnb r.aliasName))))
      from by simp [recBytesCN]] at hagree
  rw [Nat.mod_eq_of_lt httl] at hagree
  obtain ⟨hA0, hrest⟩ := agreesAt_append.mp hagree
  obtain ⟨hA1, hrest⟩ := agreesAt_append.mp hrest
  obtain ⟨hA2, hrest⟩ := agreesAt_append.mp hrest
  obtain ⟨hA3, hrest⟩ := agreesAt_append.mp hrest
  obtain ⟨hA4, hA5⟩ := agreesAt_append.mp hrest
  simp only [u16be_length, u32be_length] at hA1 hA2 hA3 hA4 hA5
  obtain ⟨hx1, hy1⟩ := agrees_u16_bytes hA1
  obtain ⟨hx2, hy2⟩ := agrees_u16_bytes hA2
  obtain ⟨ht0, ht1, ht2, ht3⟩ := agrees_u32_bytes hA3
  rw [Record.from_buffer]
  rw [read_qname_decodes hgd hA0 (by omega) (fuel600 hgd (by omega))]
  dsimp only [CRes.bind]
  rw [read_u16_val (by omega) (by norm_num) hx1 hy1]
  dsimp only [CRes.bind]
  rw [read_u16_val (by omega) (by norm_num) hx2 hy2]
  dsimp only [CRes.bind]
  rw [read_u32_val (by omega) httl ht0 ht1 ht2 ht3]
  dsimp only [CRes.bind]
  rw [read_u16_at (by omega)]
  dsimp only [CRes.bind]
  rw [show QueryType.from_u16 5 = QueryType.canonicalName from rfl]
  rw [read_qname_decodes hal hA5 (by omega) (fuel600 hal (by omega))]
  dsimp only [CRes.map]
  rw [show 0 + (qnb r.domain).length + 2 + 2 + 4 + 2 + (qnb r.aliasName).length
      = (recBytesCN r).length from by omega]

/-- Decoding the emitted bytes of a good MX record reconstructs it. -/
theorem decodeMX {r : Records.MailExchange} {g : Nat → Nat}
    (hgd : goodName r.domain) (hex : goodName r.exchange) (httl : r.ttl < 4294967296)
    (hpref : r.preference < 65536)
    (hagree : agreesAt g 0 (recBytesMX r)) (hfit : (recBytesMX r).length ≤ 512) :
    Record.from_buffer 600 ⟨g, 0⟩
      = .ok (.mailExchange ⟨r.domain, 1, r.ttl, r.preference, r.exchange⟩,
             ⟨g, (recBytesMX r).length⟩) := by
  have hlen := recBytesMX_length r
  rw [show recBytesMX r = qnb r.domain ++ (u16be 15 ++ (u16be 1 ++ (u32be (r.ttl % 4294967296)
      ++ (u16be (((qnb r.exchange).length + 6) % 65536)
          ++ (u16be r.preference ++ qnb r.exchange)))))
      from by simp [recBytesMX]] at hagree
  rw [Nat.mod_eq_of_lt httl] at hagree
  obtain ⟨hA0, hrest⟩ := agreesAt_append.mp hagree
  obtain ⟨hA1, hrest⟩ := agreesAt_append.mp hrest
  obtain ⟨hA2, hrest⟩ := agreesAt_append.mp hrest
  obtain ⟨hA3, hrest⟩ := agreesAt_append.mp hrest
  obtain ⟨hA4, hrest⟩ := agreesAt_append.mp hrest
  obtain ⟨hA5, hA6⟩ := agreesAt_append.mp hrest
  simp only [u16be_length, u32be_length] at hA1 hA2 hA3 hA4 hA5 hA6
  obtain ⟨hx1, hy1⟩ := agrees_u16_bytes hA1
  obtain ⟨hx2, hy2⟩ := agrees_u16_bytes hA2
  obtain ⟨ht0, ht1, ht2, ht3⟩ := agrees_u32_bytes hA3
  obtain ⟨hp0, hp1⟩ := agrees_u16_bytes hA5
  rw [Record.from_buffer]
  rw [read_qname_decodes hgd hA0 (by omega) (fuel600 hgd (by omega))]
  dsimp only [CRes.bind]
  rw [read_u16_val (by omega) (by norm_num) hx1 hy1]
  dsimp only [CRes.bind]
  rw [read_u16_val (by omega) (by norm_num) hx2 hy2]
  dsimp only [CRes.bind]
  rw [read_u32_val (by omega) httl ht0 ht1 ht2 ht3]
  dsimp only [CRes.bind]
  rw [read_u16_at (by omega)]
  dsimp only [CRes.bind]
  rw [show QueryType.from_u16 15 = QueryType.mailExchange from rfl]
  rw [read_u16_val (by omega) hpref hp0 hp1]
  dsimp only [CRes.bind]
  rw [read_qname_decodes hex hA6 (by omega) (fuel600 hex (by omega))]
  dsimp only [CRes.map]
  rw [show 0 + (qnb r.domain).length + 2 + 2 + 4 + 2 + 2 + (qnb r.exchange).length
      = (recBytesMX r).length from by omega]

theorem recBytesNS_lt {r : Records.AuthoritativeNameServer}
    (hgd : goodName r.domain) (hns : goodName r.ns_name) :
    ∀ v ∈ recBytesNS r, v < 256 := by
  intro v hv
  simp only [recBytesNS, List.mem_append] at hv
  rcases hv with ((((hq | h1) | h2) | h3) | h4) | h5
  · exact qnb_lt hgd v hq
  · exact u16be_lt 2 v h1
  · exact u16be_lt 1 v h2
  · exact u32be_lt _ v h3
  · exact u16be_lt _ v h4
  · exact qnb_lt hns v h5

theorem recBytesCN_lt {r : Records.CName}
    (hgd : goodName r.domain) (hal : goodName r.aliasName) :
    ∀ v ∈ recBytesCN r, v < 256 := by
  intro v hv
  simp only [recBytesCN, List.mem_append] at hv
  rcases hv with ((((hq | h1) | h2) | h3) | h4) | h5
  · exact qnb_lt hgd v hq
  · exact u16be_lt 5 v h1
  · exact u16be_lt 1 v h2
  · exact u32be_lt _ v h3
  · exact u16be_lt _ v h4
  · exact qnb_lt hal v h5

theorem recBytesMX_lt {r : Records.MailExchange}
    (hgd : goodName r.domain) (hex : goodName r.exchange) :
    ∀ v ∈ recBytesMX r, v < 256 := by
  intro v hv
  simp only [recBytesMX, List.mem_append] at hv
  rcases hv with (((((hq | h1) | h2) | h3) | h4) | h5) | h6
  · exact qnb_lt hgd v hq
  · exact u16be_lt 15 v h1
  · exact u16be_lt 1 v h2
  · exact u32be_lt _ v h3
  · exact u16be_lt _ v h4
  · exact u16be_lt _ v h5
  · exact qnb_lt hex v h6

/-- C4: for every record of a known variant whose names are wire
encodable, whose class is 1 and whose integer fields are in range, and
whose serialization succeeds, decoding the serialized bytes returns the
record unchanged.  The round trip fails for Unknown records, whose
serializer emits nothing (see the counterexample theorem). -/
theorem c4_known_record_roundtrip (r : Record) (hgood : GoodRecord r)
    (hser : (Record.serialize r bpbNew).isOk = true) :
    recordRoundTrip 600 r = .ok r := by
  cases r with
  | a rec =>
    obtain ⟨hgd, hcls, httl, hip⟩ := hgood
    cases hs : Records.A.serialize rec bpbNew with
    | ok b2 =>
      obtain ⟨hpos, hagree, h512, hz⟩ := recA_spec hgd hs
      have hfit : (recBytesA rec).length ≤ 512 := hpos ▸ h512
      have hg := decode_buffer_agrees hpos hagree (recBytesA_lt hgd) h512
      rw [recordRoundTrip]
      rw [show Record.serialize (.a rec) bpbNew = .ok b2 from hs]
      dsimp only [CRes.bind]
      rw [show Record.from_buffer 600 (from_raw_data (bpbBytes b2))
          = .ok (.a ⟨rec.domain, 1, rec.ttl, rec.ip⟩,
                 ⟨(from_raw_data (bpbBytes b2)).buf, (recBytesA rec).length⟩)
          from decodeA hgd httl hip hg hfit]
      dsimp only [CRes.map]
      rw [← hcls]
    | oor e m => rw [show Record.serialize (.a rec) bpbNew
          = .oor e m from hs] at hser; exact absurd hser (by simp [CRes.isOk])
    | fatal => rw [show Record.serialize (.a rec) bpbNew
          = .fatal from hs] at hser; exact absurd hser (by simp [CRes.isOk])
    | spin => rw [show Record.serialize (.a rec) bpbNew
          = .spin from hs] at hser; exact absurd hser (by simp [CRes.isOk])
  | authoritativeNameServer rec =>
    obtain ⟨hgd, hns, hcls, httl⟩ := hgood
    cases hs : Records.AuthoritativeNameServer.serialize rec bpbNew with
    | ok b2 =>
      obtain ⟨hpos, hagree, h512, hz⟩ := recNS_spec hgd hns hs
      have hfit : (recBytesNS rec).length ≤ 512 := hpos ▸ h512
      have hg := decode_buffer_agrees hpos hagree (recBytesNS_lt hgd hns) h512
      rw [recordRoundTrip]
      rw [show Record.serialize (.authoritativeNameServer rec) bpbNew = .ok b2 from hs]
      dsimp only [CRes.bind]
      rw [show Record.from_buffer 600 (from_raw_data (bpbBytes b2))
          = .ok (.authoritativeNameServer ⟨rec.domain, 1, rec.ttl, rec.ns_name⟩,
                 ⟨(from_raw_data (bpbBytes b2)).buf, (recBytesNS rec).length⟩)
          from decodeNS hgd hns httl hg hfit]
      dsimp only [CRes.map]
      rw [← hcls]
    | oor e m => rw [show Record.serialize (.authoritativeNameServer rec) bpbNew
          = .oor e m from hs] at hser; exact absurd hser (by simp [CRes.isOk])
    | fatal => rw [show Record.serialize (.authoritativeNameServer rec) bpbNew
          = .fatal from hs] at hser; exact absurd hser (by simp [CRes.isOk])
    | spin => rw [show Record.serialize (.authoritativeNameServer rec) bpbNew
          = .spin from hs] at hser; exact absurd hser (by simp [CRes.isOk])
  | canonicalName rec =>
    obtain ⟨hgd, hal, hcls, httl⟩ := hgood
    cases hs : Records.CName.serialize rec bpbNew with
    | ok b2 =>
      obtain ⟨hpos, hagree, h512, hz⟩ := recCN_spec hgd hal hs
      have hfit : (recBytesCN rec).length ≤ 512 := hpos ▸ h512
      have hg := decode_buffer_agrees hpos hagree (recBytesCN_lt hgd hal) h512
      rw [recordRoundTrip]
      rw [show Record.serialize (.canonicalName rec) bpbNew = .ok b2 from hs]
      dsimp only [CRes.bind]
      rw [show Record.from_buffer 600 (from_raw_data (bpbBytes b2))
          = .ok (.canonicalName ⟨rec.domain, 1, rec.ttl, rec.aliasName⟩,
                 ⟨(from_raw_data (bpbBytes b2)).buf, (recBytesCN rec).length⟩)
          from decodeCN hgd hal httl hg hfit]
      dsimp only [CRes.map]
      rw [← hcls]
    | oor e m => rw [show Record.serialize (.canonicalName rec) bpbNew
          = .oor e m from hs] at hser; exact absurd hser (by simp [CRes.isOk])
    | fatal => rw [show Record.serialize (.canonicalName rec) bpbNew
          = .fatal from hs] at hser; exact absurd hser (by simp [CRes.isOk])
    | spin => rw [show Record.serialize (.canonicalName rec) bpbNew
          = .spin from hs] at hser; exact absurd hser (by simp [CRes.isOk])
  | mailExchange rec =>
    obtain ⟨hgd, hex, hcls, httl, hpref⟩ := hgood
    cases hs : Records.MailExchange.serialize rec bpbNew with
    | ok b2 =>
      obtain ⟨hpos, hagree, h512, hz⟩ := recMX_spec hgd hex hs
      have hfit : (recBytesMX rec).length ≤ 512 := hpos ▸ h512
      have hg := decode_buffer_agrees hpos hagree (recBytesMX_lt hgd hex) h512
      rw [recordRoundTrip]
      rw [show Record.serialize (.mailExchange rec) bpbNew = .ok b2 from hs]
      dsimp only [CRes.bind]
      rw [show Record.from_buffer 600 (from_raw_data (bpbBytes b2))
          = .ok (.mailExchange ⟨rec.domain, 1, rec.ttl, rec.preference, rec.exchange⟩,
                 ⟨(from_raw_data (bpbBytes b2)).buf, (recBytesMX rec).length⟩)
          from decodeMX hgd hex httl hpref hg hfit]
      dsimp only [CRes.map]
      rw [← hcls]
    | oor e m => rw [show Record.serialize (.mailExchange rec) bpbNew
          = .oor e m from hs] at hser; exact absurd hser (by simp [CRes.isOk])
    | fatal => rw [show Record.serialize (.mailExchange rec) bpbNew
          = .fatal from hs] at hser; exact absurd hser (by simp [CRes.isOk])
    | spin => rw [show Record.serialize (.mailExchange rec) bpbNew
          = .spin from hs] at hser; exact absurd hser (by simp [CRes.isOk])
  | unknown n q c t d => exact hgood.elim

/-- Counterexample to the claim as written: an Unknown record serializes
to nothing (the catch-all serialize arm is an empty block), so its round
trip does not return the record. -/
theorem c4_unknown_not_roundtrip :
    recordRoundTrip 600 c4UnknownRecord ≠ .ok c4UnknownRecord := by
  decide

/-- The round-trip theorem applied at a concrete good A record. -/
theorem c4_known_record_roundtrip_witness :
    recordRoundTrip 600 (.a ⟨"a", 1, 60, 5⟩) = .ok (.a ⟨"a", 1, 60, 5⟩) :=
  c4_known_record_roundtrip (.a ⟨"a", 1, 60, 5⟩)
    (show goodName "a" ∧ (1 : Nat) = 1 ∧ (60 : Nat) < 4294967296
        ∧ (5 : Nat) < 4294967296 by decide)
    (by decide)

end DnsRs
